import Mathlib

/-!
Verification of the swiftblade template engine against its specification.

This file is a shallow embedding of the engine source into Lean 4.
Strings are modelled as lists of characters (`Str`), Python exceptions as
an explicit error type (`PyErr`), Python values observable by templates as
`PyValue`, and every modelled function is translated from the corresponding
Python function in the repository.  Naming follows the source: for example
`resolveTemplatePath` models `BladeEngine._resolve_template_path`
(engine.py) and `MiscHandler.process` models the handler of the same name
(handlers/control/misc.py).

A note on literals: single-quote characters are written via `squote`
(`Char.ofNat 39`) and template literals use double-quoted directive
arguments (the directive regexes accept either quote character).
-/

namespace SB

/-- Text is modelled as a list of characters, so that the scanners of the
engine can be written by structural recursion. -/
abbrev Str := List Char

/-- Conversion from a Lean string literal to the character-list model. -/
def strOf (s : String) : Str := s.toList

/-- The single-quote character (written via its code point). -/
def squote : Char := Char.ofNat 39

/-- The backslash character. -/
def bslash : Char := Char.ofNat 92

/-- Python substring containment (`needle in hay`). -/
def containsSub : Str → Str → Bool
  | [], n => n.isEmpty
  | c :: rest, n => n.isPrefixOf (c :: rest) || containsSub rest n

/-- Whitespace recognised by Python `str.strip` (the form feed and vertical
tab variants are omitted; no modelled text contains them). -/
def isPySpace (c : Char) : Bool :=
  c = ' ' || c = '\t' || c = '\n' || c = '\r'

/-- Python `str.lstrip()` with default whitespace. -/
def lstripWs : Str → Str
  | [] => []
  | c :: rest => if isPySpace c then lstripWs rest else c :: rest

/-- Python `str.strip()` with default whitespace. -/
def stripWs (s : Str) : Str :=
  (lstripWs (lstripWs s.reverse).reverse)

/-- Python `str.lstrip(c)` for a single character. -/
def lstripChar (c : Char) : Str → Str
  | [] => []
  | x :: xs => if x = c then lstripChar c xs else x :: xs

/-- Split on a separator character, like Python `str.split(sep)`. -/
def splitOnChar (sep : Char) : Str → List Str
  | [] => [[]]
  | c :: rest =>
    match splitOnChar sep rest with
    | [] => if c = sep then [[], []] else [[c]]
    | h :: t => if c = sep then [] :: h :: t else (c :: h) :: t

/-- Join components with a separator string. -/
def joinWith (sep : Str) : List Str → Str
  | [] => []
  | [x] => x
  | x :: y :: xs => x ++ sep ++ joinWith sep (y :: xs)

/-- Index of the first occurrence of `needle` in `hay`, if any. -/
def findSub (hay needle : Str) : Option Nat :=
  match hay with
  | [] => if needle.isEmpty then some 0 else none
  | _ :: rest =>
    if needle.isPrefixOf hay then some 0
    else (findSub rest needle).map (· + 1)

/-- The exception taxonomy of the engine (exceptions.py) together with the
host exceptions that can escape it.  Each constructor carries the formatted
message text (`str(e)`), which the handlers inspect by substring. -/
inductive PyErr
  | typeError (msg : Str)
  | valueError (msg : Str)
  | nameError (msg : Str)
  | attributeError (msg : Str)
  | syntaxError (msg : Str)
  | templateError (msg : Str)
  | templateNotFound (msg : Str)
  | templateSyntaxError (msg : Str)
  | directiveError (msg : Str)
  | compilationError (msg : Str)
  | securityError (msg : Str)
  | breakLoop
  | continueLoop
  | outOfFuel
  | unmodelled (msg : Str)
deriving Repr, DecidableEq

/-- Whether the exception is a subclass of `TemplateException`
(exceptions.py): the five template error kinds plus the base class.
`BreakLoop` and `ContinueLoop` derive from `Exception` directly. -/
def PyErr.isTemplateException : PyErr → Bool
  | .templateError _ | .templateNotFound _ | .templateSyntaxError _
  | .directiveError _ | .compilationError _ | .securityError _ => true
  | _ => false

/-- Whether the exception is a `SecurityError`. -/
def PyErr.isSecurityError : PyErr → Bool
  | .securityError _ => true
  | _ => false

/-- The message text used when the exception is interpolated into an
f-string (`str(e)`). -/
def PyErr.text : PyErr → Str
  | .typeError m | .valueError m | .nameError m | .attributeError m
  | .syntaxError m | .templateError m | .templateNotFound m
  | .templateSyntaxError m | .directiveError m | .compilationError m
  | .securityError m => m
  | .breakLoop => []
  | .continueLoop => []
  | .outOfFuel => []
  | .unmodelled m => m

/-- Python values observable by templates.  `safeStr` models the
`SafeString` marker subclass of `str` (utils/safe_string.py); `builtin`
models an entry of the safe-builtin table of `SafeEvaluator.safe_eval`;
`boundGet` models the bound `dict.get` method obtained by attribute
lookup on a context mapping. -/
inductive PyValue
  | none
  | bool (b : Bool)
  | int (n : Int)
  | str (s : Str)
  | safeStr (s : Str)
  | list (xs : List PyValue)
  | map (m : List (Str × PyValue))
  | builtin (name : Str)
  | boundGet (m : List (Str × PyValue))
deriving Repr, BEq

/-- Python `str(value)` for the modelled values (container rendering is
approximated; no claim stringifies a container). -/
def pyStr : PyValue → Str
  | .none => strOf "None"
  | .bool true => strOf "True"
  | .bool false => strOf "False"
  | .int n => strOf (toString n)
  | .str s => s
  | .safeStr s => s
  | .list _ => strOf "[...]"
  | .map _ => strOf "{...}"
  | .builtin n => n
  | .boundGet _ => strOf "<built-in method get>"

/-- Python truthiness. -/
def pyTruthy : PyValue → Bool
  | .none => false
  | .bool b => b
  | .int n => n != 0
  | .str s => !s.isEmpty
  | .safeStr s => !s.isEmpty
  | .list xs => !xs.isEmpty
  | .map m => !m.isEmpty
  | .builtin _ => true
  | .boundGet _ => true

/-- Numeric view used by Python `==` (`True == 1`). -/
def pyNum? : PyValue → Option Int
  | .bool b => some (if b then 1 else 0)
  | .int n => some n
  | _ => Option.none

/-- Python `==` on the modelled values.  Containers are compared
structurally (no claim compares containers). -/
def pyEq (a b : PyValue) : Bool :=
  match pyNum? a, pyNum? b with
  | some x, some y => x == y
  | _, _ =>
    match a, b with
    | .str s, .str t => s == t
    | .str s, .safeStr t => s == t
    | .safeStr s, .str t => s == t
    | .safeStr s, .safeStr t => s == t
    | x, y => x == y

/-- A variable binding, as produced by `prepare_context` (context.py):
an ordered mapping from names to values.  Lookup returns the first
match, so that the `ChainMap` overlay used by the loop handler is
modelled by list prepend. -/
abbrev Ctx := List (Str × PyValue)

/-- Python `dict` membership / lookup on the context. -/
def ctxLookup (ctx : Ctx) (k : Str) : Option PyValue :=
  match ctx with
  | [] => Option.none
  | (k1, v) :: rest => if k1 = k then some v else ctxLookup rest k

/-- Python `dict.get(k, d)`. -/
def ctxGet (ctx : Ctx) (k : Str) (d : PyValue) : PyValue :=
  (ctxLookup ctx k).getD d

/-! ## Path resolution (`BladeEngine._resolve_template_path`, engine.py) -/

/-- The valid template extensions (constants.py,
`VALID_TEMPLATE_EXTENSIONS`). -/
def VALID_TEMPLATE_EXTENSIONS : List Str :=
  [strOf ".html", strOf ".blade", strOf ".tpl", strOf ".txt"]

/-- `os.path.isabs(name) or name.startswith("/") or name.startswith("\\")`
on POSIX (`isabs` is a leading slash there). -/
def isAbsName (s : Str) : Bool :=
  (strOf "/").isPrefixOf s || [bslash].isPrefixOf s

/-- One step of `os.path.normpath` component processing for a relative
POSIX path: drop empty and dot components; a dot-dot pops the previous
component unless there is none (or it is itself a dot-dot), in which case
it is kept. -/
def normStep (acc : List Str) (c : Str) : List Str :=
  if c.isEmpty || c = ['.'] then acc
  else if c = ['.', '.'] then
    match acc.getLast? with
    | Option.none => acc ++ [c]
    | some l => if l = ['.', '.'] then acc ++ [c] else acc.dropLast
  else acc ++ [c]

/-- `os.path.normpath` for a relative POSIX path: split on the slash,
process the components, re-join; an empty result is the single dot. -/
def normpath (s : Str) : Str :=
  let comps := (splitOnChar '/' s).foldl normStep []
  if comps.isEmpty then ['.'] else joinWith (strOf "/") comps

/-- One step of `Path.resolve()` component processing for an absolute
path that is being canonicalised: a dot-dot at the root stays at the
root.  Symbolic links are not modelled (the template directory is taken
to be canonical and link-free). -/
def resolveStep (acc : List Str) (c : Str) : List Str :=
  if c.isEmpty || c = ['.'] then acc
  else if c = ['.', '.'] then acc.dropLast
  else acc ++ [c]

/-- Whether the name already ends with a valid template extension
(the auto-append guard in `_resolve_template_path`). -/
def endsWithValidExt (s : Str) : Bool :=
  VALID_TEMPLATE_EXTENSIONS.any (fun e => e.isSuffixOf s)

/-- `BladeEngine._resolve_template_path` (engine.py lines 398-441).
The template root is the already-canonicalised component list of
`Path(template_dir).resolve()`; the result is the component list of the
resolved template path.  Follows the source step by step: reject
absolute names, normalise, strip leading slashes, reject a leading or
embedded slash-dot-dot, append the extension when no valid extension is
present, resolve against the root, and verify with `relative_to` that
the root is a prefix of the result. -/
def resolveTemplatePath (root : List Str) (fileExt : Str) (name : Str) :
    Except PyErr (List Str) :=
  if isAbsName name then
    .error (.securityError (strOf "Absolute template paths are not allowed: " ++ name))
  else
    let n1 := lstripChar bslash (lstripChar '/' (normpath name))
    if (strOf "..").isPrefixOf n1 || containsSub n1 (strOf "/..")
        || containsSub n1 ([bslash] ++ strOf "..") then
      .error (.securityError (strOf "Path traversal detected: " ++ n1))
    else
      let n2 := if endsWithValidExt n1 then n1 else n1 ++ fileExt
      let resolved := (root ++ splitOnChar '/' n2).foldl resolveStep []
      if root.isPrefixOf resolved then .ok resolved
      else .error (.securityError
        (strOf "Path traversal detected: resolves outside template directory"))

/-! ## The sandboxed evaluator (`SafeEvaluator`, evaluator.py)

`SafeEvaluator.safe_eval` parses the expression with `ast.parse`,
validates every node against a whitelist plus the underscore rules, and
then evaluates with a curated builtin table.  The expression sub-language
is modelled by `PyExpr` (the subset of whitelisted Python expression
nodes that the verified claims exercise: constants, names, attributes,
calls and equality comparison) with a faithful tokenizer and
recursive-descent parser standing in for `ast.parse` on that subset. -/

/-- Tokens of the modelled expression sub-language. -/
inductive Tok
  | name (s : Str)
  | intLit (n : Nat)
  | strLit (s : Str)
  | lparen
  | rparen
  | comma
  | dot
  | eqeq
deriving Repr, BEq

/-- Identifier start character (`[a-zA-Z_]`). -/
def isIdentStart (c : Char) : Bool := c.isAlpha || c = '_'

/-- Identifier continuation character (`\w`). -/
def isIdentChar (c : Char) : Bool := c.isAlphanum || c = '_'

/-- Scan a string literal body up to the closing quote; `none` models an
unterminated literal (a `SyntaxError` in `ast.parse`). -/
def scanStrLit (q : Char) : Str → Option (Str × Str)
  | [] => Option.none
  | c :: rest =>
    if c = q then some ([], rest)
    else (scanStrLit q rest).map (fun p => (c :: p.1, p.2))

/-- Tokenizer for the modelled expression sub-language (stands in for the
lexical part of `ast.parse`). -/
def tokenizeGo : Nat → Str → Except PyErr (List Tok)
  | 0, _ => .error .outOfFuel
  | _, [] => .ok []
  | fuel + 1, c :: rest =>
    if isPySpace c then tokenizeGo fuel rest
    else if c = '(' then (Tok.lparen :: ·) <$> tokenizeGo fuel rest
    else if c = ')' then (Tok.rparen :: ·) <$> tokenizeGo fuel rest
    else if c = ',' then (Tok.comma :: ·) <$> tokenizeGo fuel rest
    else if c = '.' then (Tok.dot :: ·) <$> tokenizeGo fuel rest
    else if c = '=' then
      match rest with
      | '=' :: r2 => (Tok.eqeq :: ·) <$> tokenizeGo fuel r2
      | _ => .error (.syntaxError (strOf "invalid syntax"))
    else if c = '"' || c = squote then
      match scanStrLit c rest with
      | some (lit, r2) => (Tok.strLit lit :: ·) <$> tokenizeGo fuel r2
      | Option.none => .error (.syntaxError (strOf "unterminated string literal"))
    else if c.isDigit then
      let digits := (c :: rest).takeWhile Char.isDigit
      let r2 := (c :: rest).dropWhile Char.isDigit
      let n := digits.foldl (fun a d => a * 10 + (d.toNat - 48)) 0
      (Tok.intLit n :: ·) <$> tokenizeGo fuel r2
    else if isIdentStart c then
      let run := (c :: rest).takeWhile isIdentChar
      let r2 := (c :: rest).dropWhile isIdentChar
      (Tok.name run :: ·) <$> tokenizeGo fuel r2
    else .error (.syntaxError (strOf "invalid syntax"))

/-- Tokenize an expression string. -/
def tokenize (s : Str) : Except PyErr (List Tok) :=
  tokenizeGo (s.length + 1) s

/-- The modelled subset of whitelisted Python expression nodes
(`EVAL_ALLOWED_NODES`): constants, name loads, attribute access, calls
and `==` comparison. -/
inductive PyExpr
  | const (v : PyValue)
  | name (id : Str)
  | attr (e : PyExpr) (a : Str)
  | call (f : PyExpr) (args : List PyExpr)
  | cmpEq (l r : PyExpr)
deriving Repr, BEq

mutual

/-- Parse an atom: literal, name, or parenthesised expression. -/
def parseAtom : Nat → List Tok → Except PyErr (PyExpr × List Tok)
  | 0, _ => .error .outOfFuel
  | _, [] => .error (.syntaxError (strOf "unexpected EOF"))
  | fuel + 1, t :: ts =>
    match t with
    | .intLit n => .ok (.const (.int (Int.ofNat n)), ts)
    | .strLit s => .ok (.const (.str s), ts)
    | .name id =>
      if id = strOf "True" then .ok (.const (.bool true), ts)
      else if id = strOf "False" then .ok (.const (.bool false), ts)
      else if id = strOf "None" then .ok (.const .none, ts)
      else .ok (.name id, ts)
    | .lparen => do
      let (e, ts1) ← parseCmp fuel ts
      match ts1 with
      | .rparen :: ts2 => .ok (e, ts2)
      | _ => .error (.syntaxError (strOf "( was never closed"))
    | _ => .error (.syntaxError (strOf "invalid syntax"))

/-- Parse trailers (attribute access and calls) after an atom. -/
def parseTrail : Nat → PyExpr → List Tok → Except PyErr (PyExpr × List Tok)
  | 0, _, _ => .error .outOfFuel
  | _, e, [] => .ok (e, [])
  | fuel + 1, e, t :: ts =>
    match t with
    | .dot =>
      match ts with
      | .name a :: ts2 => parseTrail fuel (.attr e a) ts2
      | _ => .error (.syntaxError (strOf "invalid syntax"))
    | .lparen =>
      match ts with
      | .rparen :: ts2 => parseTrail fuel (.call e []) ts2
      | _ => do
        let (args, ts2) ← parseArgs fuel ts
        parseTrail fuel (.call e args) ts2
    | _ => .ok (e, t :: ts)

/-- Parse a comma-separated argument list followed by a closing paren. -/
def parseArgs : Nat → List Tok → Except PyErr (List PyExpr × List Tok)
  | 0, _ => .error .outOfFuel
  | fuel + 1, ts => do
    let (e, ts1) ← parseCmp fuel ts
    match ts1 with
    | .comma :: ts2 => do
      let (es, ts3) ← parseArgs fuel ts2
      .ok (e :: es, ts3)
    | .rparen :: ts2 => .ok ([e], ts2)
    | _ => .error (.syntaxError (strOf "( was never closed"))

/-- Parse a postfix expression. -/
def parsePostfix : Nat → List Tok → Except PyErr (PyExpr × List Tok)
  | 0, _ => .error .outOfFuel
  | fuel + 1, ts => do
    let (a, ts1) ← parseAtom fuel ts
    parseTrail fuel a ts1

/-- Parse an optional `==` comparison. -/
def parseCmp : Nat → List Tok → Except PyErr (PyExpr × List Tok)
  | 0, _ => .error .outOfFuel
  | fuel + 1, ts => do
    let (l, ts1) ← parsePostfix fuel ts
    match ts1 with
    | .eqeq :: ts2 => do
      let (r, ts3) ← parsePostfix fuel ts2
      .ok (.cmpEq l r, ts3)
    | _ => .ok (l, ts1)

end

/-- Parse a complete expression (`ast.parse(expr, mode="eval")` on the
modelled subset): the token stream must be consumed entirely. -/
def parseExprTop (s : Str) : Except PyErr PyExpr := do
  let ts ← tokenize s
  let (e, rest) ← parseCmp (5 * ts.length + 10) ts
  if rest.isEmpty then .ok e
  else .error (.syntaxError (strOf "invalid syntax"))

mutual

/-- The node validation of `SafeEvaluator.safe_eval` (evaluator.py lines
103-132) on the modelled subset: every node kind here is whitelisted, so
only the underscore hardening applies.  Attribute names that are dunder
or start with an underscore are rejected; name loads are rejected only
when they both start and end with a double underscore. -/
def validateExpr : PyExpr → Except PyErr Unit
  | .const _ => .ok ()
  | .name id =>
    if (strOf "__").isPrefixOf id && (strOf "__").isSuffixOf id then
      .error (.securityError (strOf "Access to dunder names is forbidden: " ++ id))
    else .ok ()
  | .attr e a =>
    if (strOf "__").isPrefixOf a && (strOf "__").isSuffixOf a then
      .error (.securityError (strOf "Access to dunder attributes is forbidden: " ++ a))
    else if ['_'].isPrefixOf a then
      .error (.securityError (strOf "Access to private attributes is forbidden: " ++ a))
    else validateExpr e
  | .call f args => do
    validateExpr f
    validateList args
  | .cmpEq l r => do
    validateExpr l
    validateExpr r

/-- Validation of an argument list. -/
def validateList : List PyExpr → Except PyErr Unit
  | [] => .ok ()
  | e :: es => do
    validateExpr e
    validateList es

end

/-- The names of the curated safe-builtin table installed by
`SafeEvaluator.safe_eval` (evaluator.py lines 160-217). -/
def SAFE_BUILTIN_NAMES : List Str :=
  [strOf "str", strOf "int", strOf "float", strOf "bool", strOf "list",
   strOf "dict", strOf "tuple", strOf "set", strOf "range",
   strOf "enumerate", strOf "zip", strOf "map", strOf "filter",
   strOf "len", strOf "sorted", strOf "sum", strOf "min", strOf "max",
   strOf "first", strOf "last", strOf "count", strOf "abs",
   strOf "round", strOf "upper", strOf "lower", strOf "capitalize",
   strOf "title", strOf "strip", strOf "replace", strOf "split",
   strOf "join", strOf "json_encode", strOf "json_decode",
   strOf "is_list", strOf "is_dict", strOf "is_string",
   strOf "is_number", strOf "isset", strOf "default"]

/-- Attribute lookup on a value.  Mappings behave like `DotDict`
(context.py): the bound `dict.get` method resolves before `__getattr__`,
and any other attribute is looked up as a key.  Attributes of the other
value kinds are not modelled: every claim that reaches attribute
evaluation has already failed validation or name lookup. -/
def pyGetAttr (v : PyValue) (a : Str) : Except PyErr PyValue :=
  match v with
  | .map m =>
    if a = strOf "get" then .ok (.boundGet m)
    else
      match ctxLookup m a with
      | some w => .ok w
      | Option.none => .error (.attributeError (strOf "object has no attribute " ++ a))
  | _ => .error (.attributeError (strOf "object has no attribute " ++ a))

/-- Call application for the modelled callables (`dict.get` and the
`range` builtin; the remaining builtins of the table are never called by
a verified claim). -/
def pyApply (f : PyValue) (args : List PyValue) : Except PyErr PyValue :=
  match f with
  | .boundGet m =>
    match args with
    | [.str k] => .ok (ctxGet m k .none)
    | [.str k, d] => .ok (ctxGet m k d)
    | _ => .error (.typeError (strOf "get expected at most 2 arguments"))
  | .builtin bn =>
    if bn = strOf "range" then
      match args with
      | [.int n] => .ok (.list ((List.range n.toNat).map (fun i => .int (Int.ofNat i))))
      | _ => .error (.typeError (strOf "range arguments not modelled"))
    else .error (.typeError (strOf "builtin not modelled: " ++ bn))
  | _ => .error (.typeError (strOf "object is not callable"))

mutual

/-- Evaluation of a validated expression with locals bound to the
context and globals holding only the safe-builtin table, as in
`eval(code, {"__builtins__": safe_builtins}, context)`: a name resolves
in the context first, then in the builtin table, else `NameError`
(whose Python message contains the words `is not defined`; the quotes
around the name are elided here). -/
def evalExpr (ctx : Ctx) : PyExpr → Except PyErr PyValue
  | .const v => .ok v
  | .name id =>
    match ctxLookup ctx id with
    | some v => .ok v
    | Option.none =>
      if SAFE_BUILTIN_NAMES.contains id then .ok (.builtin id)
      else .error (.nameError (strOf "name " ++ id ++ strOf " is not defined"))
  | .attr e a => do
    let v ← evalExpr ctx e
    pyGetAttr v a
  | .call f args => do
    let vf ← evalExpr ctx f
    let vargs ← evalArgs ctx args
    pyApply vf vargs
  | .cmpEq l r => do
    let a ← evalExpr ctx l
    let b ← evalExpr ctx r
    .ok (.bool (pyEq a b))

/-- Left-to-right evaluation of call arguments. -/
def evalArgs (ctx : Ctx) : List PyExpr → Except PyErr (List PyValue)
  | [] => .ok []
  | e :: es => do
    let v ← evalExpr ctx e
    let vs ← evalArgs ctx es
    .ok (v :: vs)

end

/-- `SafeEvaluator.safe_eval(expr, context)` (evaluator.py lines 79-224):
strip, parse, validate, evaluate.  A `SecurityError` raised by
validation is re-raised as is; every other failure (including a
`SyntaxError` from parsing and a `NameError` from evaluation) is wrapped
in `DirectiveError("Error evaluating expression: ...")`. -/
def safeEval (expr : Str) (ctx : Ctx) : Except PyErr PyValue :=
  let e := stripWs expr
  if e.isEmpty then .ok .none
  else
    match parseExprTop e with
    | .error err =>
      .error (.directiveError (strOf "Error evaluating expression: " ++ err.text))
    | .ok ast =>
      match validateExpr ast with
      | .error err => .error err
      | .ok _ =>
        match evalExpr ctx ast with
        | .ok v => .ok v
        | .error err =>
          if err.isSecurityError then .error err
          else .error (.directiveError (strOf "Error evaluating expression: " ++ err.text))

/-! ## Variable interpolation (`VariableHandler`, handlers/variables.py) -/

/-- The Python reserved words (`keyword.kwlist`). -/
def PY_KEYWORDS : List Str :=
  [strOf "False", strOf "None", strOf "True", strOf "and", strOf "as",
   strOf "assert", strOf "async", strOf "await", strOf "break",
   strOf "class", strOf "continue", strOf "def", strOf "del",
   strOf "elif", strOf "else", strOf "except", strOf "finally",
   strOf "for", strOf "from", strOf "global", strOf "if",
   strOf "import", strOf "in", strOf "is", strOf "lambda",
   strOf "nonlocal", strOf "not", strOf "or", strOf "pass",
   strOf "raise", strOf "return", strOf "try", strOf "while",
   strOf "with", strOf "yield"]

/-- `VariableHandler.OPERATOR_KEYWORDS`: reserved words kept as operator
syntax and not translated. -/
def OPERATOR_KEYWORDS : List Str :=
  [strOf "and", strOf "or", strOf "not", strOf "in", strOf "is",
   strOf "if", strOf "else", strOf "True", strOf "False", strOf "None",
   strOf "for", strOf "lambda"]

/-- The replacement text produced for a translated reserved word:
`context.get("word","")`. -/
def keywordReplacement (w : Str) : Str :=
  strOf "context.get(\"" ++ w ++ strOf "\",\"\")"

/-- Whether the character terminates the negative lookbehind or
lookahead of `_IDENTIFIER_PATTERN` (a dot or either quote). -/
def isIdentGuard (c : Char) : Bool := c = '.' || c = squote || c = '"'

/-- `VariableHandler._translate_reserved_keywords` (handlers/variables.py
lines 33-51): every maximal identifier run not preceded or followed by a
dot or quote that is a reserved word outside `OPERATOR_KEYWORDS` is
replaced by `context.get("word","")`.  (The code comment speaks of a
context-membership test, but the code performs none.) -/
def translateGo (fuel : Nat) (prev : Option Char) (s : Str) : Str :=
  match fuel, s with
  | 0, s => s
  | _, [] => []
  | fuel + 1, c :: rest =>
    let prevIsWord := match prev with
      | some p => isIdentChar p
      | Option.none => false
    if isIdentStart c && !prevIsWord then
      let run := (c :: rest).takeWhile isIdentChar
      let rest2 := (c :: rest).dropWhile isIdentChar
      let behindOk := match prev with
        | some p => !isIdentGuard p
        | Option.none => true
      let aheadOk := match rest2 with
        | c2 :: _ => !isIdentGuard c2
        | [] => true
      let repl :=
        if behindOk && aheadOk && PY_KEYWORDS.contains run
            && !OPERATOR_KEYWORDS.contains run then
          keywordReplacement run
        else run
      repl ++ translateGo fuel (some (run.getLastD c)) rest2
    else c :: translateGo fuel (some c) rest

/-- Entry point of the reserved-word translation. -/
def translateReserved (s : Str) : Str :=
  translateGo (s.length + 1) Option.none s

/-- `_SIMPLE_VAR_PATTERN` (`^\$([a-zA-Z_]\w*)$`). -/
def simpleVarMatch : Str → Option Str
  | '$' :: c :: rest =>
    if isIdentStart c && rest.all isIdentChar then some (c :: rest)
    else Option.none
  | _ => Option.none

/-- `_DOLLAR_VAR_PATTERN` substitution (`\$([a-zA-Z_]\w*)` to the bare
name): a dollar immediately followed by an identifier start is removed. -/
def dollarSub : Str → Str
  | [] => []
  | '$' :: c :: rest =>
    if isIdentStart c then c :: dollarSub rest
    else '$' :: dollarSub (c :: rest)
  | c :: rest => c :: dollarSub rest

/-- The expression-evaluation part of `VariableHandler._output_variable`
(handlers/variables.py lines 72-96): the simple `$keyword` form reads
the context directly; otherwise the dollar prefix is stripped, reserved
words are translated, and the result goes to `safe_eval`. -/
def evalOutputExpr (ctx : Ctx) (expr : Str) : Except PyErr PyValue :=
  let ec := stripWs expr
  match simpleVarMatch ec with
  | some vn =>
    if PY_KEYWORDS.contains vn then .ok (ctxGet ctx vn (.str []))
    else safeEval vn ctx
  | Option.none =>
    let ec1 :=
      match ec with
      | '$' :: c :: _ => if c.isAlpha || c = '_' then dollarSub ec else ec
      | _ => ec
    safeEval (translateReserved ec1) ctx

/-- Python `str.replace(needle, repl)` for a single-character needle. -/
def replaceChar (needle : Char) (repl : Str) : Str → Str
  | [] => []
  | c :: rest => (if c = needle then repl else [c]) ++ replaceChar needle repl rest

/-- The escaping chain of `_output_variable` (handlers/variables.py lines
106-111), in source order: ampersand, less-than, greater-than, double
quote, single quote. -/
def escapeHtml (s : Str) : Str :=
  replaceChar squote (strOf "&#x27;")
    (replaceChar '"' (strOf "&quot;")
      (replaceChar '>' (strOf "&gt;")
        (replaceChar '<' (strOf "&lt;")
          (replaceChar '&' (strOf "&amp;") s))))

/-- The emission part of `_output_variable` (handlers/variables.py lines
97-113): `None` renders as the empty string, a `SafeString` is returned
without escaping, and otherwise the string form is escaped when `escape`
is set. -/
def renderValue (escape : Bool) (v : PyValue) : Str :=
  let result := match v with
    | .none => []
    | _ => pyStr v
  match v with
  | .safeStr _ => result
  | _ => if escape then escapeHtml result else result

/-- `VariableHandler._output_variable` (handlers/variables.py lines
70-121): evaluate and emit; a `SecurityError` is always re-raised, any
other failure is re-raised in strict mode and renders as the empty
string otherwise. -/
def outputVariable (strict escape : Bool) (ctx : Ctx) (expr : Str) :
    Except PyErr Str :=
  match evalOutputExpr ctx expr with
  | .ok v => .ok (renderValue escape v)
  | .error e =>
    if e.isSecurityError then .error e
    else if strict then .error e
    else .ok []

/-- Leftmost-match substitution for the interpolation patterns
`\{\{\s*(.*?)\s*\}\}` and `\{!!\s*(.*?)\s*!!\}` (constants.py): at each
opening delimiter the lazy group reaches to the first closing delimiter;
since the dot does not match a newline, a candidate whose trimmed core
still contains a newline cannot match and scanning resumes one character
further on.  The replacement is not rescanned. -/
def subVarsGo (fuel : Nat) (opn cls : Str) (emit : Str → Except PyErr Str)
    (s : Str) : Except PyErr Str :=
  match fuel with
  | 0 => .error .outOfFuel
  | fuel + 1 =>
    match findSub s opn with
    | Option.none => .ok s
    | some i =>
      let pre := s.take i
      let after := s.drop (i + opn.length)
      match findSub after cls with
      | Option.none => .ok s
      | some j =>
        let core := stripWs (after.take j)
        if core.contains '\n' then do
          let tail ← subVarsGo fuel opn cls emit (s.drop (i + 1))
          .ok (s.take (i + 1) ++ tail)
        else do
          let rep ← emit core
          let rest ← subVarsGo fuel opn cls emit (after.drop (j + cls.length))
          .ok (pre ++ rep ++ rest)

/-- `VariableHandler.process` (handlers/variables.py lines 53-68): the
escaped pass runs over the whole template first, then the raw pass. -/
def variablesProcess (strict : Bool) (ctx : Ctx) (t : Str) :
    Except PyErr Str := do
  let t1 ← subVarsGo (t.length + 1) (strOf "\x7b\x7b") (strOf "\x7d\x7d")
    (outputVariable strict true ctx) t
  subVarsGo (t1.length + 1) (strOf "\x7b!!") (strOf "!!\x7d")
    (outputVariable strict false ctx) t1

/-! ## Scanner helpers shared by the handlers

The handlers locate directives with compiled regexes (constants.py).
Each pattern used by a verified claim is modelled by a hand-written
scanner with the same matching semantics: leftmost match, lazy groups
reaching to the first closing delimiter, and a failed candidate causing
the scan to resume one character further on. -/

/-- `s[a:b]` on the character list. -/
def slice (s : Str) (a b : Nat) : Str := (s.drop a).take (b - a)

/-- Whether `p` occurs at index `i` of `s`. -/
def sliceStarts (s : Str) (i : Nat) (p : Str) : Bool := p.isPrefixOf (s.drop i)

/-- `str.split(sep, 1)` restricted to a successful two-way split. -/
def splitOnce (sep s : Str) : Option (Str × Str) :=
  (findSub s sep).map (fun i => (s.take i, s.drop (i + sep.length)))

/-- Global substitution of a literal (used for `BREAK_PATTERN.sub`). -/
def replaceSubAll (fuel : Nat) (needle repl s : Str) : Str :=
  match fuel with
  | 0 => s
  | fuel + 1 =>
    match findSub s needle with
    | Option.none => s
    | some i => s.take i ++ repl ++ replaceSubAll fuel needle repl (s.drop (i + needle.length))

/-- Strip `{{-- ... --}}` comments (`COMMENT_PATTERN`): each comment runs
to the first closing `--}}`. -/
def stripCommentsGo (fuel : Nat) (s : Str) : Str :=
  match fuel with
  | 0 => s
  | fuel + 1 =>
    match findSub s (strOf "\x7b\x7b--") with
    | Option.none => s
    | some i =>
      let after := s.drop (i + 4)
      match findSub after (strOf "--\x7d\x7d") with
      | Option.none => s
      | some j => s.take i ++ stripCommentsGo fuel (after.drop (j + 4))

/-- `MiscHandler._process_comments`. -/
def stripComments (s : Str) : Str := stripCommentsGo (s.length + 1) s

/-- Parse `\s*(["\'])name\1\s*\)` — the quoted-argument head shared by the
directive patterns.  Returns the argument and the text after the closing
paren.  (The lazy argument group of the single-line patterns would reject
a newline inside the quotes; no modelled argument contains one.) -/
def parseQuotedHead (s : Str) : Option (Str × Str) :=
  match lstripWs s with
  | [] => Option.none
  | q :: rest =>
    if q = '"' || q = squote then
      match scanStrLit q rest with
      | some (name, rest2) =>
        match lstripWs rest2 with
        | ')' :: rest3 => some (name, rest3)
        | _ => Option.none
      | Option.none => Option.none
    else Option.none

/-- Find the leftmost match of a block directive
`opn ( \s* quote name quote \s* ) body endTag` with a lazy body, as in
`PUSH_PATTERN`, `PREPEND_PATTERN`, `ISSET_PATTERN` and `EMPTY_PATTERN`.
Returns `(before, name, body, after)`. -/
def findArgBlock (fuel : Nat) (opn endT s : Str) : Option (Str × Str × Str × Str) :=
  match fuel with
  | 0 => Option.none
  | fuel + 1 =>
    match findSub s opn with
    | Option.none => Option.none
    | some i =>
      let retry :=
        (findArgBlock fuel opn endT (s.drop (i + 1))).map
          (fun r => (s.take (i + 1) ++ r.1, r.2.1, r.2.2.1, r.2.2.2))
      match parseQuotedHead (s.drop (i + opn.length)) with
      | some (name, rest) =>
        match findSub rest endT with
        | some j => some (s.take i, name, rest.take j, rest.drop (j + endT.length))
        | Option.none => retry
      | Option.none => retry

/-- Find the leftmost match of an argument-only directive
`opn \s* quote name quote \s* )`, as in `STACK_PATTERN`,
`EXTENDS_PATTERN` and the head of `YIELD_PATTERN`.  Returns
`(before, name, after)`. -/
def findArgDir (fuel : Nat) (opn s : Str) : Option (Str × Str × Str) :=
  match fuel with
  | 0 => Option.none
  | fuel + 1 =>
    match findSub s opn with
    | Option.none => Option.none
    | some i =>
      match parseQuotedHead (s.drop (i + opn.length)) with
      | some (name, rest) => some (s.take i, name, rest)
      | Option.none =>
        (findArgDir fuel opn (s.drop (i + 1))).map
          (fun r => (s.take (i + 1) ++ r.1, r.2.1, r.2.2))

/-- The stack store (`StackHandler.stacks`): an insertion-ordered mapping
from stack name to the list of pushed fragments. -/
abbrev Stacks := List (Str × List Str)

/-- Assoc lookup. -/
def assocFind {α : Type} (m : List (Str × α)) (k : Str) : Option α :=
  match m with
  | [] => Option.none
  | (k1, v) :: rest => if k1 = k then some v else assocFind rest k

/-- Assoc update-or-append (Python dict assignment). -/
def assocSet {α : Type} (m : List (Str × α)) (k : Str) (v : α) : List (Str × α) :=
  match m with
  | [] => [(k, v)]
  | (k1, w) :: rest => if k1 = k then (k1, v) :: rest else (k1, w) :: assocSet rest k v

/-- `StackHandler.process_push` body: append the stripped fragment. -/
def stacksAppend (st : Stacks) (k v : Str) : Stacks :=
  match assocFind st k with
  | some l => assocSet st k (l ++ [v])
  | Option.none => st ++ [(k, [v])]

/-- `PrependHandler.process` body: insert the stripped fragment at the
front. -/
def stacksPrepend (st : Stacks) (k v : Str) : Stacks :=
  match assocFind st k with
  | some l => assocSet st k (v :: l)
  | Option.none => st ++ [(k, [v])]

/-- `StackHandler.process_push` (handlers/stacks.py lines 25-39): each
`@push("name") body @endpush` block adds its stripped body to the store
and is removed from the template. -/
def pushGo (fuel : Nat) (st : Stacks) (s : Str) : Str × Stacks :=
  match fuel with
  | 0 => (s, st)
  | fuel + 1 =>
    match findArgBlock (s.length + 1) (strOf "@push(") (strOf "@endpush") s with
    | Option.none => (s, st)
    | some (before, name, body, after) =>
      let st1 := stacksAppend st (stripWs name) (stripWs body)
      let (rest, st2) := pushGo fuel st1 after
      (before ++ rest, st2)

/-- `PrependHandler.process` (handlers/stacks.py lines 75-88). -/
def prependGo (fuel : Nat) (st : Stacks) (s : Str) : Str × Stacks :=
  match fuel with
  | 0 => (s, st)
  | fuel + 1 =>
    match findArgBlock (s.length + 1) (strOf "@prepend(") (strOf "@endprepend") s with
    | Option.none => (s, st)
    | some (before, name, body, after) =>
      let st1 := stacksPrepend st (stripWs name) (stripWs body)
      let (rest, st2) := prependGo fuel st1 after
      (before ++ rest, st2)

/-- `ConditionalHandler._extract_balanced_parens` inner walk: collect up
to the balancing close paren; running off the end yields the characters
collected so far, as the source's final `return ''.join(result)` does
(conditionals.py line 223). -/
def ebGo : Str → Nat → Str → Str
  | [], _, acc => acc.reverse
  | ')' :: _, 0, acc => acc.reverse
  | ')' :: rest, d + 1, acc => ebGo rest d (')' :: acc)
  | '(' :: rest, d, acc => ebGo rest (d + 1) ('(' :: acc)
  | c :: rest, d, acc => ebGo rest d (c :: acc)

/-- `ConditionalHandler._extract_balanced_parens(text, pos)` (also used
by the branch splitter): the empty string signals no extraction. -/
def extractBalanced (t : Str) (pos : Nat) : Str :=
  match t.drop pos with
  | '(' :: rest => ebGo rest 0 []
  | _ => []

/-- Branch kinds of `_split_conditional_branches`. -/
inductive BranchKind
  | ifB
  | elseifB
  | elseB
deriving Repr, BEq

/-- The depth-aware branch splitter
`ConditionalHandler._split_conditional_branches` (conditionals.py lines
127-198): scan the body, tracking nested `@if(`/`@endif` depth; at depth
zero an `@elseif(` or `@else` closes the current branch. -/
def splitGo (fuel : Nat) (body : Str) (i bodyStart depth : Nat)
    (curKind : BranchKind) (curCond : Str)
    (acc : List (BranchKind × Str × Str)) : List (BranchKind × Str × Str) :=
  match fuel with
  | 0 => acc ++ [(curKind, curCond, slice body bodyStart body.length)]
  | fuel + 1 =>
    if i ≥ body.length then
      acc ++ [(curKind, curCond, slice body bodyStart body.length)]
    else if sliceStarts body i (strOf "@if(") then
      splitGo fuel body (i + 4) bodyStart (depth + 1) curKind curCond acc
    else if sliceStarts body i (strOf "@endif") && depth > 0 then
      splitGo fuel body (i + 6) bodyStart (depth - 1) curKind curCond acc
    else if depth = 0 && sliceStarts body i (strOf "@elseif(") then
      let acc1 := acc ++ [(curKind, curCond, slice body bodyStart i)]
      let cond := extractBalanced body (i + 7)
      let i1 := i + 7 + cond.length + 2
      splitGo fuel body i1 i1 0 .elseifB cond acc1
    else if depth = 0 && sliceStarts body i (strOf "@else")
        && !(sliceStarts body (i + 5) (strOf "i")) then
      let acc1 := acc ++ [(curKind, curCond, slice body bodyStart i)]
      splitGo fuel body (i + 5) (i + 5) 0 .elseB [] acc1
    else
      splitGo fuel body (i + 1) bodyStart depth curKind curCond acc

/-- Entry point of the branch splitter. -/
def splitBranches (body : Str) : List (BranchKind × Str × Str) :=
  splitGo (body.length + 1) body 0 0 0 .ifB [] []

/-- The `@endif` pairing scan of `ConditionalHandler.process`
(conditionals.py lines 51-71): `none` models the `body_end == -1`
fall-through. -/
def findEndifScan (fuel : Nat) (t : Str) (searchPos depth : Nat) : Option Nat :=
  match fuel with
  | 0 => Option.none
  | fuel + 1 =>
    let nif := (findSub (t.drop searchPos) (strOf "@if(")).map (· + searchPos)
    let nend := (findSub (t.drop searchPos) (strOf "@endif")).map (· + searchPos)
    match nend with
    | some e =>
      let endFirst := match nif with
        | Option.none => true
        | some f => e < f
      if endFirst then
        if depth = 1 then some e
        else findEndifScan fuel t (e + 6) (depth - 1)
      else
        match nif with
        | some f => findEndifScan fuel t (f + 4) (depth + 1)
        | Option.none => Option.none
    | Option.none =>
      match nif with
      | some f => findEndifScan fuel t (f + 4) (depth + 1)
      | Option.none => Option.none

/-- `LoopHandler._find_matching_endforeach` (loops.py lines 47-70):
depth-aware pairing; a missing `@endforeach` raises. -/
def findEndforeach (fuel : Nat) (t : Str) (pos depth : Nat) : Except PyErr Nat :=
  match fuel with
  | 0 => .error .outOfFuel
  | fuel + 1 =>
    let nf := (findSub (t.drop pos) (strOf "@foreach")).map (· + pos)
    let ne := (findSub (t.drop pos) (strOf "@endforeach")).map (· + pos)
    match ne with
    | Option.none =>
      .error (.templateSyntaxError (strOf "Unmatched @foreach - missing @endforeach"))
    | some e =>
      match nf with
      | some f =>
        if f < e then findEndforeach fuel t (f + 8) (depth + 1)
        else if depth = 1 then .ok e
        else findEndforeach fuel t (e + 11) (depth - 1)
      | Option.none =>
        if depth = 1 then .ok e
        else findEndforeach fuel t (e + 11) (depth - 1)

/-- Locate the next `@foreach\s*\((.*?)\)` match at or after `offset`
(the local pattern of `LoopHandler._process_foreach`): the lazy header
runs to the first close paren and, the dot not matching newlines, a
header containing one is no match.  Returns
`(match start, header, index after the close paren)`. -/
def findForeachHead (fuel : Nat) (s : Str) (offset : Nat) :
    Option (Nat × Str × Nat) :=
  match fuel with
  | 0 => Option.none
  | fuel + 1 =>
    match (findSub (s.drop offset) (strOf "@foreach")).map (· + offset) with
    | Option.none => Option.none
    | some i =>
      let afterKw := s.drop (i + 8)
      let ws := afterKw.takeWhile isPySpace
      let afterWs := afterKw.drop ws.length
      match afterWs with
      | '(' :: inner =>
        match findSub inner (strOf ")") with
        | some h =>
          let hdr := inner.take h
          if hdr.contains '\n' then findForeachHead fuel s (i + 1)
          else some (i, hdr, i + 8 + ws.length + 1 + h + 1)
        | Option.none => findForeachHead fuel s (i + 1)
      | _ => findForeachHead fuel s (i + 1)

/-- Locate the next `@for\s*\((.*?)\)\s*([\s\S]*?)@endfor` match
(`FOR_PATTERN`).  Returns `(before, header, body, after)`. -/
def findForHead (fuel : Nat) (s : Str) : Option (Str × Str × Str × Str) :=
  match fuel with
  | 0 => Option.none
  | fuel + 1 =>
    match findSub s (strOf "@for") with
    | Option.none => Option.none
    | some i =>
      let retry :=
        (findForHead fuel (s.drop (i + 1))).map
          (fun r => (s.take (i + 1) ++ r.1, r.2.1, r.2.2.1, r.2.2.2))
      let afterKw := s.drop (i + 4)
      let afterWs := afterKw.drop (afterKw.takeWhile isPySpace).length
      match afterWs with
      | '(' :: inner =>
        match findSub inner (strOf ")") with
        | some h =>
          let hdr := inner.take h
          if hdr.contains '\n' then retry
          else
            let afterP := inner.drop (h + 1)
            let body0 := afterP.drop (afterP.takeWhile isPySpace).length
            match findSub body0 (strOf "@endfor") with
            | some j => some (s.take i, hdr, body0.take j, body0.drop (j + 7))
            | Option.none => retry
        | Option.none => retry
      | _ => retry

/-- What `for value in iterable` iterates over for the modelled values
(`none` models a `TypeError`: object is not iterable). -/
def iterItems : PyValue → Option (List PyValue)
  | .list xs => some xs
  | .str s => some (s.map (fun c => .str [c]))
  | .safeStr s => some (s.map (fun c => .str [c]))
  | .map m => some (m.map (fun kv => PyValue.str kv.1))
  | _ => Option.none

/-- Minimum of up to three candidate indices. -/
def minOpt3 (a b c : Option Nat) : Option Nat :=
  let m2 := fun (x y : Option Nat) =>
    match x, y with
    | Option.none, y => y
    | x, Option.none => x
    | some i, some j => some (min i j)
  m2 (m2 a b) c

/-- `CASE_PATTERN.finditer` over the switch body: each case header is the
lazy run to the first close paren (DOTALL) and each case body runs to the
lookahead `@case(`/`@default`/`@endswitch`; a case with no such
terminator after it does not match and the scan resumes one character
past its opener. -/
def collectCases (fuel : Nat) (body : Str) : List (Str × Str) :=
  match fuel with
  | 0 => []
  | fuel + 1 =>
    match findSub body (strOf "@case(") with
    | Option.none => []
    | some i =>
      let afterP := body.drop (i + 6)
      match findSub afterP (strOf ")") with
      | Option.none => []
      | some h =>
        let hdr := afterP.take h
        let rest := afterP.drop (h + 1)
        let j3 := minOpt3 (findSub rest (strOf "@case("))
          (findSub rest (strOf "@default")) (findSub rest (strOf "@endswitch"))
        match j3 with
        | some j => (hdr, rest.take j) :: collectCases fuel (rest.drop j)
        | Option.none => collectCases fuel (body.drop (i + 1))

/-- Locate the next `@switch\((.*?)\)([\s\S]*?)@endswitch` match
(`SWITCH_PATTERN`): the header is the lazy run to the first close paren
(no newline; the pattern has no DOTALL for the header dot) and the body
is the lazy run to the first `@endswitch`.  Returns
`(before, header, body, after)`. -/
def findSwitch (fuel : Nat) (s : Str) : Option (Str × Str × Str × Str) :=
  match fuel with
  | 0 => Option.none
  | fuel + 1 =>
    match findSub s (strOf "@switch(") with
    | Option.none => Option.none
    | some i =>
      let retry :=
        (findSwitch fuel (s.drop (i + 1))).map
          (fun r => (s.take (i + 1) ++ r.1, r.2.1, r.2.2.1, r.2.2.2))
      let afterP := s.drop (i + 8)
      match findSub afterP (strOf ")") with
      | Option.none => Option.none
      | some h =>
        let hdr := afterP.take h
        if hdr.contains '\n' then retry
        else
          let rest := afterP.drop (h + 1)
          match findSub rest (strOf "@endswitch") with
          | Option.none => retry
          | some b => some (s.take i, hdr, rest.take b, rest.drop (b + 10))

/-- Locate the next `@yield` match (`YIELD_PATTERN`): quoted name with an
optional quoted default.  Returns `(before, name, default, after)`. -/
def parseYieldTail (s : Str) : Option (Str × Str × Str) :=
  match lstripWs s with
  | [] => Option.none
  | q :: r1 =>
    if q = '"' || q = squote then
      match scanStrLit q r1 with
      | Option.none => Option.none
      | some (name, r2) =>
        if name.contains '\n' then Option.none
        else
          match lstripWs r2 with
          | ',' :: r4 =>
            (match lstripWs r4 with
             | q2 :: r6 =>
               if q2 = '"' || q2 = squote then
                 let dflt := r6.takeWhile (fun c => !(c = '"' || c = squote))
                 match r6.drop dflt.length with
                 | _ :: r8 =>
                   match lstripWs r8 with
                   | ')' :: r9 => some (name, dflt, r9)
                   | _ => Option.none
                 | [] => Option.none
               else Option.none
             | [] => Option.none)
          | ')' :: r4 => some (name, [], r4)
          | _ => Option.none
    else Option.none

/-- Find the next `@yield(...)` occurrence; a malformed candidate resumes
the scan one character further on. -/
def findYield (fuel : Nat) (s : Str) : Option (Str × Str × Str × Str) :=
  match fuel with
  | 0 => Option.none
  | fuel + 1 =>
    match findSub s (strOf "@yield(") with
    | Option.none => Option.none
    | some i =>
      match parseYieldTail (s.drop (i + 7)) with
      | some (name, dflt, rest) => some (s.take i, name, dflt, rest)
      | Option.none =>
        (findYield fuel (s.drop (i + 1))).map
          (fun r => (s.take (i + 1) ++ r.1, r.2.1, r.2.2.1, r.2.2.2))

/-- Find the next `@section` match (`SECTION_PATTERN`, DOTALL): after
the quoted name comes either `, quote inline quote )` (the inline quote
must repeat the opening quote, a backreference in the pattern) or
`) block @endsection` with a lazy block.  Returns
`(before, name, content, after)`. -/
def findSection (fuel : Nat) (s : Str) : Option (Str × Str × Str × Str) :=
  match fuel with
  | 0 => Option.none
  | fuel + 1 =>
    match findSub s (strOf "@section(") with
    | Option.none => Option.none
    | some i =>
      let retry :=
        (findSection fuel (s.drop (i + 1))).map
          (fun r => (s.take (i + 1) ++ r.1, r.2.1, r.2.2.1, r.2.2.2))
      match lstripWs (s.drop (i + 9)) with
      | [] => Option.none
      | q :: r1 =>
        if q = '"' || q = squote then
          match scanStrLit q r1 with
          | Option.none => retry
          | some (name, r2) =>
            match lstripWs r2 with
            | ',' :: r3 =>
              (match lstripWs r3 with
               | q2 :: r4 =>
                 if q2 = q then
                   match scanStrLit q r4 with
                   | some (inl, r5) =>
                     (match lstripWs r5 with
                      | ')' :: r6 => some (s.take i, name, inl, r6)
                      | _ => retry)
                   | Option.none => retry
                 else retry
               | [] => retry)
            | ')' :: r3 =>
              (match findSub r3 (strOf "@endsection") with
               | some j => some (s.take i, name, r3.take j, r3.drop (j + 11))
               | Option.none => retry)
            | _ => retry
        else retry

/-- `ExtendsHandler._extract_sections` finditer-plus-removal
(extends.py lines 56-69): collect `name => content.strip()` (later
sections overwrite) and delete every match. -/
def sectionsGo (fuel : Nat) (s : Str) (acc : List (Str × Str)) :
    List (Str × Str) × Str :=
  match fuel with
  | 0 => (acc, s)
  | fuel + 1 =>
    match findSection (s.length + 1) s with
    | Option.none => (acc, s)
    | some (before, name, content, after) =>
      let (acc2, rest) :=
        sectionsGo fuel after (assocSet acc (stripWs name) (stripWs content))
      (acc2, before ++ rest)

/-- Find the first `@extends` match (`EXTENDS_PATTERN`): quoted parent
name.  Returns `(before, parentName, after)`. -/
def findExtends (s : Str) : Option (Str × Str × Str) :=
  findArgDir (s.length + 1) (strOf "@extends(") s

/-- `EXTENDS_PATTERN.sub("", template)`: remove every match. -/
def extendsStrip (fuel : Nat) (s : Str) : Str :=
  match fuel with
  | 0 => s
  | fuel + 1 =>
    match findExtends s with
    | Option.none => s
    | some (before, _, after) => before ++ extendsStrip fuel after

/-! ## The handler pipeline

The mutually recursive pass functions, threaded through an explicit fuel
parameter (the source recursion is bounded by its resource limits; every
theorem below either supplies ample fuel for its concrete input or holds
for every fuel value). -/

/-- The engine configuration fields consulted by the modelled passes
(`BladeEngine.__init__`). -/
structure EngineCfg where
  strictMode : Bool
  allowPythonBlocks : Bool
  maxLoopIterations : Nat
  maxTemplateSize : Nat
  fileExt : Str
  root : List Str
deriving Repr

/-- The default configuration used by the concrete scenarios: default
flags and limits, `.html` extension, a fixed canonical template root. -/
def defaultCfg : EngineCfg :=
  ⟨false, false, 10000, 10000000, strOf ".html", [strOf "app", strOf "views"]⟩

/-- The filesystem visible to the engine: resolved path components to
file text. -/
abbrev FileSys := List (List Str × Str)

/-- File lookup (`os.path.exists` plus `open().read()`). -/
def fsFind (fs : FileSys) (p : List Str) : Option Str :=
  match fs with
  | [] => Option.none
  | (q, content) :: rest => if q = p then some content else fsFind rest p

/-- The message of the `@python` security gate
(`MiscHandler._process_python`). -/
def pythonGateMsg : Str :=
  strOf "@python blocks are disabled for security. Set allow_python_blocks=True in BladeEngine() to enable (not recommended)."

mutual

/-- `MiscHandler.process` (handlers/control/misc.py lines 16-27): strip
comments, gate `@python`, then `@isset`/`@empty`.  With
`allow_python_blocks` unset, any remaining `@python` substring raises a
`SecurityError` before any block is even matched; the enabled case would
execute statements and is outside the modelled configurations.  With no
`@python` occurrence, `PYTHON_PATTERN` cannot match and its substitution
is the identity. -/
def miscProcess (fuel : Nat) (cfg : EngineCfg) (t : Str) (ctx : Ctx) :
    Except PyErr Str :=
  match fuel with
  | 0 => .error .outOfFuel
  | fuel + 1 =>
    let t1 := stripComments t
    if containsSub t1 (strOf "@python") then
      if !cfg.allowPythonBlocks then
        .error (.securityError pythonGateMsg)
      else .error (.unmodelled (strOf "@python statement execution"))
    else do
      let t2 ← issetGo fuel cfg t1 ctx
      emptyGo fuel cfg t2 ctx

termination_by structural fuel

/-- The `@isset` substitution of `MiscHandler._process_isset_empty`: the
body is processed iff the name is bound to a non-None value. -/
def issetGo (fuel : Nat) (cfg : EngineCfg) (s : Str) (ctx : Ctx) :
    Except PyErr Str :=
  match fuel with
  | 0 => .error .outOfFuel
  | fuel + 1 =>
    match findArgBlock (s.length + 1) (strOf "@isset(") (strOf "@endisset") s with
    | Option.none => .ok s
    | some (before, name, body, after) => do
      let cond := match ctxLookup ctx (stripWs name) with
        | some PyValue.none => false
        | some _ => true
        | Option.none => false
      let rep ← if cond then ctrlProcess fuel cfg body ctx else pure []
      let rest ← issetGo fuel cfg after ctx
      .ok (before ++ rep ++ rest)

termination_by structural fuel

/-- The `@empty` substitution of `MiscHandler._process_isset_empty`: the
body is processed iff `context.get(name)` is falsy. -/
def emptyGo (fuel : Nat) (cfg : EngineCfg) (s : Str) (ctx : Ctx) :
    Except PyErr Str :=
  match fuel with
  | 0 => .error .outOfFuel
  | fuel + 1 =>
    match findArgBlock (s.length + 1) (strOf "@empty(") (strOf "@endempty") s with
    | Option.none => .ok s
    | some (before, name, body, after) => do
      let rep ← if !pyTruthy (ctxGet ctx (stripWs name) PyValue.none) then
          ctrlProcess fuel cfg body ctx
        else pure []
      let rest ← emptyGo fuel cfg after ctx
      .ok (before ++ rep ++ rest)

termination_by structural fuel

/-- `SwitchHandler.process` (handlers/control/switches.py lines 16-59):
for each `@switch` match, evaluate the discriminant (any failure,
security included, becomes a `TemplateSyntaxError`), then try the cases
in order. -/
def switchGo (fuel : Nat) (cfg : EngineCfg) (s : Str) (ctx : Ctx) :
    Except PyErr Str :=
  match fuel with
  | 0 => .error .outOfFuel
  | fuel + 1 =>
    match findSwitch (s.length + 1) s with
    | Option.none => .ok s
    | some (before, hdr, body, after) =>
      match safeEval (stripWs hdr) ctx with
      | .error e =>
        .error (.templateSyntaxError
          (strOf "Error in @switch expression: " ++ e.text))
      | .ok sv => do
        let rep ← caseSelect fuel cfg (collectCases (body.length + 1) body) sv body ctx
        let rest ← switchGo fuel cfg after ctx
        .ok (before ++ rep ++ rest)

termination_by structural fuel

/-- The case loop of `SwitchHandler.process`: a failing case expression
is skipped (`except Exception: continue` — this swallows a
`SecurityError`); the first case equal to the discriminant has `@break`
stripped and its body processed; with no match, the `@default` body (the
remainder of the switch body after the first `@default`) is processed. -/
def caseSelect (fuel : Nat) (cfg : EngineCfg) (cases : List (Str × Str))
    (sv : PyValue) (body : Str) (ctx : Ctx) : Except PyErr Str :=
  match fuel with
  | 0 => .error .outOfFuel
  | fuel + 1 =>
    match cases with
    | [] =>
      match findSub body (strOf "@default") with
      | some d =>
        ctrlProcess fuel cfg
          (replaceSubAll (body.length + 1) (strOf "@break") [] (body.drop (d + 8))) ctx
      | Option.none => .ok []
    | (ce, cb) :: rest =>
      match safeEval (stripWs ce) ctx with
      | .error _ => caseSelect fuel cfg rest sv body ctx
      | .ok cv =>
        if pyEq sv cv then
          ctrlProcess fuel cfg
            (replaceSubAll (cb.length + 1) (strOf "@break") [] cb) ctx
        else caseSelect fuel cfg rest sv body ctx

termination_by structural fuel

/-- `LoopHandler._process_foreach` (handlers/control/loops.py lines
72-151): locate a `@foreach` header (the lazy header regex stops at the
first close paren), pair it with its `@endforeach`, split the header on
`in`, evaluate the iterable (any failure raises
`TemplateSyntaxError("Error in @foreach header: ...")`), run the
iterations, splice the output and continue after it. -/
def foreachGo (fuel : Nat) (cfg : EngineCfg) (s : Str) (offset : Nat)
    (ctx : Ctx) : Except PyErr Str :=
  match fuel with
  | 0 => .error .outOfFuel
  | fuel + 1 =>
    match findForeachHead (s.length + 1) s offset with
    | Option.none => .ok s
    | some (i, hdr, afterParen) => do
      let endPos ← findEndforeach (s.length + 1) s afterParen 1
      let body := slice s afterParen endPos
      match splitOnce (strOf " in ") (stripWs hdr) with
      | Option.none =>
        .error (.templateSyntaxError
          (strOf "Error in @foreach header: not enough values to unpack (expected 2, got 1)"))
      | some (lv, ie) =>
        match safeEval (stripWs ie) ctx with
        | .error e =>
          .error (.templateSyntaxError (strOf "Error in @foreach header: " ++ e.text))
        | .ok itv =>
          match iterItems itv with
          | Option.none =>
            .error (.templateSyntaxError
              (strOf "Error in @foreach loop: object is not iterable"))
          | some items =>
            match foreachIter fuel cfg (stripWs lv) items body ctx 0 [] with
            | .error e =>
              if e.isSecurityError then .error e
              else .error (.templateSyntaxError
                (strOf "Error in @foreach loop: " ++ e.text))
            | .ok rep =>
              let s2 := s.take i ++ rep ++ s.drop (endPos + 11)
              foreachGo fuel cfg s2 (i + rep.length) ctx

termination_by structural fuel

/-- The iteration loop of `_process_foreach`: bound check, child scope by
overlay, nested-foreach then conditional then variable pass on the body,
with `ContinueLoop` skipping the append and `BreakLoop` ending the
loop. -/
def foreachIter (fuel : Nat) (cfg : EngineCfg) (lv : Str)
    (items : List PyValue) (body : Str) (ctx : Ctx) (count : Nat)
    (acc : Str) : Except PyErr Str :=
  match fuel with
  | 0 => .error .outOfFuel
  | fuel + 1 =>
    match items with
    | [] => .ok acc
    | v :: rest =>
      if count ≥ cfg.maxLoopIterations then
        .error (.securityError (strOf "Maximum loop iterations exceeded"))
      else
        let lctx := (lv, v) :: ctx
        let attempt : Except PyErr Str := do
          let r1 ← foreachGo fuel cfg body 0 lctx
          let r2 ← condGo fuel cfg r1 0 lctx
          variablesProcess cfg.strictMode lctx r2
        match attempt with
        | .ok rendered => foreachIter fuel cfg lv rest body ctx (count + 1) (acc ++ rendered)
        | .error .continueLoop => foreachIter fuel cfg lv rest body ctx (count + 1) acc
        | .error .breakLoop => .ok acc
        | .error e => .error e

termination_by structural fuel

/-- `LoopHandler._process_for` (handlers/control/loops.py lines
153-209): a global substitution over `FOR_PATTERN` matches with the same
iteration structure as `@foreach`. -/
def forGo (fuel : Nat) (cfg : EngineCfg) (s : Str) (ctx : Ctx) :
    Except PyErr Str :=
  match fuel with
  | 0 => .error .outOfFuel
  | fuel + 1 =>
    match findForHead (s.length + 1) s with
    | Option.none => .ok s
    | some (before, hdr, body, after) =>
      match splitOnce (strOf " in ") (stripWs hdr) with
      | Option.none =>
        .error (.templateSyntaxError
          (strOf "Error in @for header: not enough values to unpack (expected 2, got 1)"))
      | some (lv, ie) =>
        match safeEval (stripWs ie) ctx with
        | .error e =>
          .error (.templateSyntaxError (strOf "Error in @for header: " ++ e.text))
        | .ok itv =>
          match iterItems itv with
          | Option.none =>
            .error (.templateSyntaxError
              (strOf "Error in @for loop: object is not iterable"))
          | some items =>
            match forIter fuel cfg (stripWs lv) items body ctx 0 [] with
            | .error e =>
              if e.isSecurityError then .error e
              else .error (.templateSyntaxError
                (strOf "Error in @for loop: " ++ e.text))
            | .ok rep => do
              let rest ← forGo fuel cfg after ctx
              .ok (before ++ rep ++ rest)

termination_by structural fuel

/-- The iteration loop of `_process_for`. -/
def forIter (fuel : Nat) (cfg : EngineCfg) (lv : Str)
    (items : List PyValue) (body : Str) (ctx : Ctx) (count : Nat)
    (acc : Str) : Except PyErr Str :=
  match fuel with
  | 0 => .error .outOfFuel
  | fuel + 1 =>
    match items with
    | [] => .ok acc
    | v :: rest =>
      if count ≥ cfg.maxLoopIterations then
        .error (.securityError (strOf "Maximum loop iterations exceeded"))
      else
        let lctx := (lv, v) :: ctx
        let attempt : Except PyErr Str := do
          let r1 ← forGo fuel cfg body lctx
          let r2 ← condGo fuel cfg r1 0 lctx
          variablesProcess cfg.strictMode lctx r2
        match attempt with
        | .ok rendered => forIter fuel cfg lv rest body ctx (count + 1) (acc ++ rendered)
        | .error .continueLoop => forIter fuel cfg lv rest body ctx (count + 1) acc
        | .error .breakLoop => .ok acc
        | .error e => .error e

termination_by structural fuel

/-- `LoopHandler.process`: `@foreach` first, then `@for`. -/
def loopProcess (fuel : Nat) (cfg : EngineCfg) (t : Str) (ctx : Ctx) :
    Except PyErr Str :=
  match fuel with
  | 0 => .error .outOfFuel
  | fuel + 1 => do
    let t1 ← foreachGo fuel cfg t 0 ctx
    forGo fuel cfg t1 ctx

termination_by structural fuel

/-- `ConditionalHandler.process` (conditionals.py lines 28-86): locate
`@if(`, extract the balanced condition, pair with the matching `@endif`
depth-aware, process the block, splice, continue past the
replacement. -/
def condGo (fuel : Nat) (cfg : EngineCfg) (s : Str) (offset : Nat)
    (ctx : Ctx) : Except PyErr Str :=
  match fuel with
  | 0 => .error .outOfFuel
  | fuel + 1 =>
    match (findSub (s.drop offset) (strOf "@if(")).map (· + offset) with
    | Option.none => .ok s
    | some i =>
      let parenStart := i + 3
      let cond := extractBalanced s parenStart
      if cond.isEmpty then condGo fuel cfg s (i + 1) ctx
      else
        let bodyStart := parenStart + cond.length + 2
        match findEndifScan (s.length + 1) s bodyStart 1 with
        | Option.none => condGo fuel cfg s (i + 1) ctx
        | some bodyEnd => do
          let rep ← processIfBlock fuel cfg cond (slice s bodyStart bodyEnd) ctx
          let s2 := s.take i ++ rep ++ s.drop (bodyEnd + 6)
          condGo fuel cfg s2 (i + rep.length) ctx

termination_by structural fuel

/-- `ConditionalHandler._process_if_block` (conditionals.py lines
88-125): split the branches; evaluate the condition — truthy processes
the first branch body, an error whose text mentions `is not defined` is
treated as falsy, any other error (a `SecurityError` included) becomes a
`TemplateSyntaxError`; otherwise fall through to the remaining
branches. -/
def processIfBlock (fuel : Nat) (cfg : EngineCfg) (cond body : Str)
    (ctx : Ctx) : Except PyErr Str :=
  match fuel with
  | 0 => .error .outOfFuel
  | fuel + 1 =>
    let parts := splitBranches body
    let trueBlock := match parts with
      | [] => []
      | p :: _ => p.2.2
    match safeEval (stripWs cond) ctx with
    | .ok v =>
      if pyTruthy v then ctrlProcess fuel cfg trueBlock ctx
      else evalBranches fuel cfg (parts.drop 1) ctx
    | .error e =>
      if containsSub e.text (strOf "is not defined") then
        evalBranches fuel cfg (parts.drop 1) ctx
      else
        .error (.templateSyntaxError (strOf "Error in @if condition: " ++ e.text))

termination_by structural fuel

/-- The branch loop of `_process_if_block`: an `@elseif` whose condition
evaluates truthy is processed; a failing `@elseif` condition is skipped
outright (`except Exception: pass` — this swallows a `SecurityError`);
an `@else` branch is processed unconditionally. -/
def evalBranches (fuel : Nat) (cfg : EngineCfg)
    (parts : List (BranchKind × Str × Str)) (ctx : Ctx) : Except PyErr Str :=
  match fuel with
  | 0 => .error .outOfFuel
  | fuel + 1 =>
    match parts with
    | [] => .ok []
    | (kind, cond, body) :: rest =>
      match kind with
      | .elseifB =>
        (match safeEval (stripWs cond) ctx with
         | .ok v =>
           if pyTruthy v then ctrlProcess fuel cfg body ctx
           else evalBranches fuel cfg rest ctx
         | .error _ => evalBranches fuel cfg rest ctx)
      | .elseB => ctrlProcess fuel cfg body ctx
      | .ifB => evalBranches fuel cfg rest ctx

termination_by structural fuel

/-- `ControlStructureHandler.process` (handlers/control/base package
init): misc, then switch, then loops, then conditionals. -/
def ctrlProcess (fuel : Nat) (cfg : EngineCfg) (t : Str) (ctx : Ctx) :
    Except PyErr Str :=
  match fuel with
  | 0 => .error .outOfFuel
  | fuel + 1 => do
    let t1 ← miscProcess fuel cfg t ctx
    let t2 ← switchGo fuel cfg t1 ctx
    let t3 ← loopProcess fuel cfg t2 ctx
    condGo fuel cfg t3 0 ctx

termination_by structural fuel

/-- `StackHandler.process_stack` (handlers/stacks.py lines 41-56): each
`@stack("name")` emits the newline-join of the collected fragments,
recursively processed by `process_template`; an unknown name emits the
empty string.  The store is read, never cleared. -/
def stackEmitGo (fuel : Nat) (cfg : EngineCfg) (st : Stacks) (s : Str)
    (ctx : Ctx) : Except PyErr (Str × Stacks) :=
  match fuel with
  | 0 => .error .outOfFuel
  | fuel + 1 =>
    match findArgDir (s.length + 1) (strOf "@stack(") s with
    | Option.none => .ok (s, st)
    | some (before, name, after) => do
      let (rep, st1) ←
        match assocFind st (stripWs name) with
        | Option.none => pure (([] : Str), st)
        | some frags =>
          processTemplate fuel cfg st (joinWith (strOf "\n") frags) ctx
      let (rest, st2) ← stackEmitGo fuel cfg st1 after ctx
      .ok (before ++ rep ++ rest, st2)

termination_by structural fuel

/-- `TemplateParser.process_template` (parser.py lines 51-76), in source
order: `@push` and `@prepend` collection, the x-component pass (the
identity on templates without `<x-`; the rewriting loop body itself is
outside the modelled subset), the include pass (likewise for
`@include`), the custom-directive pass (the registry is empty in every
verified configuration, so its per-directive loop body never runs),
control structures, `@stack` emission, then variable interpolation. -/
def processTemplate (fuel : Nat) (cfg : EngineCfg) (st : Stacks) (t : Str)
    (ctx : Ctx) : Except PyErr (Str × Stacks) :=
  match fuel with
  | 0 => .error .outOfFuel
  | fuel + 1 => do
    let (t1, st1) := pushGo (t.length + 1) st t
    let (t2, st2) := prependGo (t1.length + 1) st1 t1
    let t3 ←
      if containsSub t2 (strOf "<x-") then
        .error (.unmodelled (strOf "x-component expansion"))
      else pure t2
    let t4 ←
      if containsSub t3 (strOf "@include") then
        .error (.unmodelled (strOf "include expansion"))
      else pure t3
    let t5 ← ctrlProcess fuel cfg t4 ctx
    let (t6, st3) ← stackEmitGo fuel cfg st2 t5 ctx
    let t7 ← variablesProcess cfg.strictMode ctx t6
    .ok (t7, st3)

termination_by structural fuel

/-- `ExtendsHandler._replace_yields` (handlers/extends.py lines 71-84):
each `@yield` emits the section content (or the default), recursively
processed when non-empty. -/
def yieldGo (fuel : Nat) (cfg : EngineCfg) (sections : List (Str × Str))
    (st : Stacks) (s : Str) (ctx : Ctx) : Except PyErr (Str × Stacks) :=
  match fuel with
  | 0 => .error .outOfFuel
  | fuel + 1 =>
    match findYield (s.length + 1) s with
    | Option.none => .ok (s, st)
    | some (before, name, dflt, after) => do
      let content := (assocFind sections (stripWs name)).getD dflt
      let (rep, st1) ←
        if content.isEmpty then pure (content, st)
        else processTemplate fuel cfg st content ctx
      let (rest, st2) ← yieldGo fuel cfg sections st1 after ctx
      .ok (before ++ rep ++ rest, st2)

termination_by structural fuel

/-- `ExtendsHandler.process` (handlers/extends.py lines 17-54): with no
`@extends`, replace stray yields (empty section table) and delete stray
sections; otherwise resolve and read the parent, delete the `@extends`
matches, extract the child sections, merge leftover child text into the
`content` section, and replace the yields of the parent. -/
def extendsProcess (fuel : Nat) (cfg : EngineCfg) (fs : FileSys)
    (st : Stacks) (t : Str) (ctx : Ctx) : Except PyErr (Str × Stacks) :=
  match fuel with
  | 0 => .error .outOfFuel
  | fuel + 1 =>
    match findExtends t with
    | Option.none => do
      let (t1, st1) ← yieldGo fuel cfg [] st t ctx
      .ok ((sectionsGo (t1.length + 1) t1 []).2, st1)
    | some (_, pname, _) => do
      let ppath ← resolveTemplatePath cfg.root cfg.fileExt pname
      match fsFind fs ppath with
      | Option.none =>
        .error (.templateNotFound (strOf "Parent template not found: " ++ pname))
      | some parent =>
        let t1 := extendsStrip (t.length + 1) t
        let (secs, remaining) := sectionsGo (t1.length + 1) t1 []
        let secs2 :=
          if !(stripWs remaining).isEmpty then
            assocSet secs (strOf "content")
              (((assocFind secs (strOf "content")).getD []) ++ strOf "\n"
                ++ stripWs remaining)
          else secs
        yieldGo fuel cfg secs2 st parent ctx

/-- `TemplateParser.parse` (parser.py lines 40-49): `@extends`
resolution, then the processing pass. -/
def parseTemplate (fuel : Nat) (cfg : EngineCfg) (fs : FileSys)
    (st : Stacks) (t : Str) (ctx : Ctx) : Except PyErr (Str × Stacks) :=
  match fuel with
  | 0 => .error .outOfFuel
  | fuel + 1 => do
    let (t1, st1) ← extendsProcess fuel cfg fs st t ctx
    processTemplate fuel cfg st1 t1 ctx

end

/-- `BladeEngine.render_string` (engine.py lines 228-260): validation,
context preparation (the identity on the assoc-list view of the
context), then `parse`; a non-template exception is wrapped in the base
`TemplateException`.  The stack store is the persistent state of the
engine-held parser: it is passed in and returned, never cleared. -/
def renderString (fuel : Nat) (cfg : EngineCfg) (fs : FileSys)
    (st : Stacks) (t : Str) (ctx : Ctx) : Except PyErr (Str × Stacks) :=
  if t.isEmpty then .error (.valueError (strOf "template_string cannot be empty"))
  else if t.length > cfg.maxTemplateSize then
    .error (.valueError (strOf "template_string too large"))
  else
    match parseTemplate fuel cfg fs st t ctx with
    | .ok r => .ok r
    | .error e =>
      if e.isTemplateException then .error e
      else .error (.templateError (strOf "Error rendering string template: " ++ e.text))

/-! ## The memory cache (`MemoryCache`, cache/memory.py) and `render` -/

/-- `CacheEntry` (cache/base.py lines 40-48). -/
structure CacheEntry where
  content : Str
  mtime : Int
  contextHash : Str
  accessTime : Nat
  accessCount : Nat
deriving Repr, DecidableEq

/-- `MemoryCache` (cache/memory.py).  A cache key is the pair of the
template path and the context-hash input (`_make_cache_key` concatenates
the path with the SHA-256 of the serialised context; keying by the pair
models that composite under the standard assumption that the hash does
not collide). -/
structure MemCache where
  entries : List ((Str × Str) × CacheEntry)
  maxSize : Nat
  ttl : Nat
  trackMtime : Bool
  hits : Nat
  misses : Nat
deriving Repr, DecidableEq

/-- A fresh `MemoryCache` with the engine defaults
(`cache_max_size=1000`, `cache_ttl=3600`, `track_mtime=True`). -/
def emptyCache : MemCache := ⟨[], 1000, 3600, true, 0, 0⟩

/-- Pair-keyed assoc lookup. -/
def keyFind (m : List ((Str × Str) × CacheEntry)) (k : Str × Str) :
    Option CacheEntry :=
  match m with
  | [] => Option.none
  | (k1, v) :: rest => if k1 = k then some v else keyFind rest k

/-- Pair-keyed assoc removal (`del self.cache[key]`). -/
def keyErase (m : List ((Str × Str) × CacheEntry)) (k : Str × Str) :
    List ((Str × Str) × CacheEntry) :=
  match m with
  | [] => []
  | (k1, v) :: rest => if k1 = k then rest else (k1, v) :: keyErase rest k

/-- Pair-keyed assoc update-or-append. -/
def keySet (m : List ((Str × Str) × CacheEntry)) (k : Str × Str)
    (v : CacheEntry) : List ((Str × Str) × CacheEntry) :=
  match m with
  | [] => [(k, v)]
  | (k1, w) :: rest =>
    if k1 = k then (k1, v) :: rest else (k1, w) :: keySet rest k v

/-- The context-hash input of `_get_context_hash`: the empty string for a
falsy context, else the serialised context (the JSON serialisation is
approximated by `pyStr`; the engine itself only ever hashes the empty
context). -/
def ctxHashInput (v : PyValue) : Str :=
  if pyTruthy v then pyStr v else []

/-- `MemoryCache.get(template_path)` as called by the engine — the
context argument defaults to the empty dict, whose hash input is the
empty string (cache/memory.py lines 112-151).  Returns the hit, if any,
and the mutated cache. -/
def memGet (c : MemCache) (now : Nat) (fileMtime : Int) (pathS : Str) :
    Option Str × MemCache :=
  let key := (pathS, ([] : Str))
  match keyFind c.entries key with
  | Option.none =>
    (Option.none, ⟨c.entries, c.maxSize, c.ttl, c.trackMtime, c.hits, c.misses + 1⟩)
  | some e =>
    if c.ttl ≠ 0 && decide (c.ttl < now - e.accessTime) then
      (Option.none,
        ⟨keyErase c.entries key, c.maxSize, c.ttl, c.trackMtime, c.hits, c.misses + 1⟩)
    else if c.trackMtime && fileMtime != e.mtime then
      (Option.none,
        ⟨keyErase c.entries key, c.maxSize, c.ttl, c.trackMtime, c.hits, c.misses + 1⟩)
    else
      (some e.content,
        ⟨keySet c.entries key ⟨e.content, e.mtime, e.contextHash, now, e.accessCount + 1⟩,
          c.maxSize, c.ttl, c.trackMtime, c.hits + 1, c.misses⟩)

/-- The LRU eviction of `MemoryCache._evict_lru`: drop the entry with the
smallest access time (ties broken by insertion order, as `min` over the
dict). -/
def evictLRU (m : List ((Str × Str) × CacheEntry)) :
    List ((Str × Str) × CacheEntry) :=
  match m with
  | [] => []
  | first :: rest =>
    let lru := rest.foldl
      (fun best e => if e.2.accessTime < best.2.accessTime then e else best) first
    keyErase m lru.1

/-- The dynamic call `cache.store(...)` with positional arguments.
`MemoryCache.store(self, template_path, context, content)` declares
three required parameters (cache/memory.py line 153), so Python binds a
call with any other number of positional arguments to a `TypeError`.
The engine passes two (engine.py line 213). -/
def memStoreCall (c : MemCache) (now : Nat) (fileMtime : Int)
    (args : List PyValue) : Except PyErr MemCache :=
  match args with
  | [pathArg, ctxArg, contentArg] =>
    let key := (pyStr pathArg, ctxHashInput ctxArg)
    let base := if c.entries.length ≥ c.maxSize then evictLRU c.entries else c.entries
    let mt : Int := if c.trackMtime then fileMtime else 0
    .ok ⟨keySet base key ⟨pyStr contentArg, mt, ctxHashInput ctxArg, now, 0⟩,
      c.maxSize, c.ttl, c.trackMtime, c.hits, c.misses⟩
  | _ =>
    .error (.typeError
      (strOf "store() missing 1 required positional argument: content"))

/-- `str(path)` of a resolved component list. -/
def pathStr (comps : List Str) : Str :=
  strOf "/" ++ joinWith (strOf "/") comps

/-- Stat times are not modelled (no verified claim exercises the
mtime-based invalidation); `_get_file_mtime` is a constant here. -/
def fsMtime (fs : FileSys) (p : List Str) : Int :=
  let _ := fs
  let _ := p
  0

/-- `BladeEngine.render` (engine.py lines 141-226): validate, resolve,
consult the raw cache, on a miss check existence and the size bound,
read the file, call `cache.store` with the path and the raw source (two
positional arguments), then parse.  The parse call alone is guarded by
the try block that re-raises `TemplateException` and wraps anything
else; the `store` call is outside it. -/
def render (fuel : Nat) (cfg : EngineCfg) (fs : FileSys)
    (cache : Option MemCache) (st : Stacks) (now : Nat) (name : Str)
    (ctx : Ctx) : Except PyErr (Str × Option MemCache × Stacks) :=
  if name.isEmpty then .error (.valueError (strOf "template_name cannot be empty"))
  else
    match resolveTemplatePath cfg.root cfg.fileExt name with
    | .error e => .error e
    | .ok path =>
      let pstr := pathStr path
      let got : Option Str × Option MemCache :=
        match cache with
        | some c =>
          let r := memGet c now (fsMtime fs path) pstr
          (r.1, some r.2)
        | Option.none => (Option.none, Option.none)
      let parseStep (cache2 : Option MemCache) (raw : Str) :
          Except PyErr (Str × Option MemCache × Stacks) :=
        match parseTemplate fuel cfg fs st raw ctx with
        | .ok (out, st2) => .ok (out, cache2, st2)
        | .error e =>
          if e.isTemplateException then .error e
          else .error (.templateError
            (strOf "Error rendering template: " ++ e.text))
      match got.1 with
      | some raw => parseStep got.2 raw
      | Option.none =>
        match fsFind fs path with
        | Option.none =>
          .error (.templateNotFound (strOf "Template not found: " ++ name))
        | some raw =>
          if raw.length > cfg.maxTemplateSize then
            .error (.securityError (strOf "Template file too large"))
          else
            match got.2 with
            | some c =>
              (match memStoreCall c now (fsMtime fs path) [.str pstr, .str raw] with
               | .error e => .error e
               | .ok c2 => parseStep (some c2) raw)
            | Option.none => parseStep Option.none raw

/-! ## Definitions used by the claim statements -/

/-- The per-character escape table as the specification words it
(`& < > " \x27` to their entities, every other character unchanged).
This definition follows the spec text and exists to be compared with
`escapeHtml`, which follows the source. -/
def escTableSpec (c : Char) : Str :=
  if c = '&' then strOf "&amp;"
  else if c = '<' then strOf "&lt;"
  else if c = '>' then strOf "&gt;"
  else if c = '"' then strOf "&quot;"
  else if c = squote then strOf "&#x27;"
  else [c]

/-- Spec-worded escaping: apply the table to each character. -/
def escapeHtmlSpec (s : Str) : Str := s.flatMap escTableSpec

mutual

/-- Whether the expression contains an attribute access whose attribute
starts with an underscore (the hardening target of claim C6). -/
def hasPrivAttr : PyExpr → Bool
  | .const _ => false
  | .name _ => false
  | .attr e a => ['_'].isPrefixOf a || hasPrivAttr e
  | .call f args => hasPrivAttr f || hasPrivAttrList args
  | .cmpEq l r => hasPrivAttr l || hasPrivAttr r

/-- List form of `hasPrivAttr`. -/
def hasPrivAttrList : List PyExpr → Bool
  | [] => false
  | e :: es => hasPrivAttr e || hasPrivAttrList es

end

mutual

/-- Whether the expression contains a name that both starts and ends
with a double underscore. -/
def hasDunderName : PyExpr → Bool
  | .const _ => false
  | .name id => (strOf "__").isPrefixOf id && (strOf "__").isSuffixOf id
  | .attr e _ => hasDunderName e
  | .call f args => hasDunderName f || hasDunderNameList args
  | .cmpEq l r => hasDunderName l || hasDunderName r

/-- List form of `hasDunderName`. -/
def hasDunderNameList : List PyExpr → Bool
  | [] => false
  | e :: es => hasDunderName e || hasDunderNameList es

end

/-- A canonical component list: no component is empty, a dot, or a
dot-dot (the shape of `Path(template_dir).resolve()` on a link-free
directory). -/
def cleanComps (l : List Str) : Prop :=
  ∀ c ∈ l, c ≠ [] ∧ c ≠ ['.'] ∧ c ≠ ['.', '.']

/-- The header-and-body extraction of the `FOREACH_PATTERN` variant of
the loop handler (blade/handlers/control/loops.py lines 26-38,
`@foreach\s*\((.*?)\)\s*([\s\S]*?)@endforeach`): the lazy header again
stops at the first close paren. -/
def findForeachBlade (s : Str) : Option (Str × Str) :=
  match findForeachHead (s.length + 1) s 0 with
  | Option.none => Option.none
  | some (_, hdr, afterParen) =>
    let rest := s.drop afterParen
    let body0 := rest.drop (rest.takeWhile isPySpace).length
    match findSub body0 (strOf "@endforeach") with
    | some j => some (hdr, body0.take j)
    | Option.none => Option.none

/-- Append a trailing string to the last component (the shape of
`splitOnChar` over an append with a separator-free right part). -/
def concatLast (l : List Str) (t : Str) : List Str :=
  match l with
  | [] => [t]
  | [x] => [x ++ t]
  | x :: y :: r => x :: concatLast (y :: r) t

/-- A component that `resolveStep` keeps as it stands: not empty and not
a dot. -/
def realComp (c : Str) : Bool := !(c.isEmpty || c = ['.'])

/-- Whether a result is a raised `SecurityError` (observer used by the
claim statements). -/
def isSecurityResult {α : Type} : Except PyErr α → Bool
  | .error e => e.isSecurityError
  | .ok _ => false

/-- Decidable equality on `Except` results. -/
instance {ε α : Type} [DecidableEq ε] [DecidableEq α] :
    DecidableEq (Except ε α) := fun a b =>
  match a, b with
  | .ok x, .ok y =>
    if h : x = y then .isTrue (by rw [h])
    else .isFalse (by intro q; cases q; exact h rfl)
  | .error x, .error y =>
    if h : x = y then .isTrue (by rw [h])
    else .isFalse (by intro q; cases q; exact h rfl)
  | .ok _, .error _ => .isFalse (by intro q; cases q)
  | .error _, .ok _ => .isFalse (by intro q; cases q)

/-! # Theorems

First the path-resolution development (claim C4), then the evaluator and
escaping lemmas, then the claim theorems. -/

theorem splitOnChar_ne_nil (sep : Char) (s : Str) : splitOnChar sep s ≠ [] := by
  cases s with
  | nil => simp [splitOnChar]
  | cons c cs =>
    simp only [splitOnChar]
    split <;> split <;> simp

theorem join_split (sep : Char) (s : Str) :
    joinWith [sep] (splitOnChar sep s) = s := by
  induction s with
  | nil => rfl
  | cons c cs ih =>
    obtain ⟨h, t, heq⟩ := List.exists_cons_of_ne_nil (splitOnChar_ne_nil sep cs)
    rw [heq] at ih
    simp only [splitOnChar, heq]
    by_cases hc : c = sep
    · subst hc
      simp only [if_pos rfl, joinWith]
      cases t with
      | nil =>
        simp only [joinWith] at ih ⊢
        simp [ih]
      | cons y r =>
        simp only [joinWith] at ih ⊢
        simp [ih]
    · simp only [if_neg hc]
      cases t with
      | nil =>
        simp only [joinWith] at ih ⊢
        simp [ih]
      | cons y r =>
        simp only [joinWith] at ih ⊢
        simp [← ih, List.cons_append, List.append_assoc]

theorem mem_split_no_sep (sep : Char) (s : Str) :
    ∀ x ∈ splitOnChar sep s, sep ∉ x := by
  induction s with
  | nil => intro x hx; simp [splitOnChar] at hx; simp [hx]
  | cons c cs ih =>
    intro x hx
    obtain ⟨h, t, heq⟩ := List.exists_cons_of_ne_nil (splitOnChar_ne_nil sep cs)
    rw [heq] at ih
    simp only [splitOnChar, heq] at hx
    by_cases hc : c = sep
    · rw [if_pos hc] at hx
      rcases List.mem_cons.mp hx with rfl | hx
      · simp
      · exact ih x hx
    · rw [if_neg hc] at hx
      rcases List.mem_cons.mp hx with rfl | hx
      · intro hmem
        rcases List.mem_cons.mp hmem with heq2 | hmem
        · exact hc heq2.symm
        · exact ih h (by simp) hmem
      · exact ih x (by simp [hx])

theorem split_sepfree (sep : Char) (t : Str) (hfree : ∀ c ∈ t, c ≠ sep) :
    splitOnChar sep t = [t] := by
  induction t with
  | nil => rfl
  | cons c cs ih =>
    have hcs : splitOnChar sep cs = [cs] := ih (fun d hd => hfree d (by simp [hd]))
    simp [splitOnChar, hcs, hfree c (by simp)]

theorem split_append_sepfree (sep : Char) (s t : Str)
    (hfree : ∀ c ∈ t, c ≠ sep) :
    splitOnChar sep (s ++ t) = concatLast (splitOnChar sep s) t := by
  induction s with
  | nil =>
    simp only [List.nil_append, splitOnChar, concatLast]
    exact split_sepfree sep t hfree
  | cons c cs ih =>
    obtain ⟨h, tl, heq⟩ := List.exists_cons_of_ne_nil (splitOnChar_ne_nil sep cs)
    rw [heq] at ih
    have hc2 : splitOnChar sep (c :: cs ++ t) = splitOnChar sep (c :: (cs ++ t)) := rfl
    rw [hc2]
    simp only [splitOnChar, heq, ih]
    by_cases hc : c = sep
    · subst hc
      cases tl with
      | nil => simp [concatLast]
      | cons y r => simp [concatLast]
    · cases tl with
      | nil => simp [concatLast, hc]
      | cons y r => simp [concatLast, hc]

theorem mem_concatLast (l : List Str) (t x : Str)
    (hx : x ∈ concatLast l t) : x ∈ l ∨ ∃ y, x = y ++ t := by
  induction l with
  | nil =>
    simp only [concatLast, List.mem_singleton] at hx
    exact Or.inr ⟨[], by simp [hx]⟩
  | cons a rest ih =>
    cases rest with
    | nil =>
      simp only [concatLast, List.mem_singleton] at hx
      exact Or.inr ⟨a, hx⟩
    | cons b r =>
      simp only [concatLast] at hx
      rcases List.mem_cons.mp hx with heq | hx
      · exact Or.inl (by simp [heq])
      · rcases ih hx with hmem | hy
        · exact Or.inl (by simp [hmem])
        · exact Or.inr hy

theorem exists_concatLast (l : List Str) (t : Str) :
    ∃ y, (y ++ t) ∈ concatLast l t := by
  induction l with
  | nil => exact ⟨[], by simp [concatLast]⟩
  | cons a rest ih =>
    cases rest with
    | nil => exact ⟨a, by simp [concatLast]⟩
    | cons b r =>
      obtain ⟨y, hy⟩ := ih
      exact ⟨y, by simp [concatLast, hy]⟩

theorem contains_of_prefix {s n : Str} (h : n.isPrefixOf s = true) :
    containsSub s n = true := by
  cases s with
  | nil =>
    cases n with
    | nil => rfl
    | cons c r => simp [List.isPrefixOf] at h
  | cons c r => simp [containsSub, h]

theorem contains_append_left {b n : Str} (a : Str)
    (h : containsSub b n = true) : containsSub (a ++ b) n = true := by
  induction a with
  | nil => simpa using h
  | cons c r ih => simp [containsSub, ih]

theorem join_dotdot_mem (l : List Str) (hfree : ∀ x ∈ l, '/' ∉ x)
    (hmem : ['.', '.'] ∈ l) :
    (strOf "..").isPrefixOf (joinWith (strOf "/") l) = true ∨
      containsSub (joinWith (strOf "/") l) (strOf "/..") = true := by
  induction l with
  | nil => simp at hmem
  | cons x rest ih =>
    rcases List.mem_cons.mp hmem with heq | hmem
    · subst heq
      left
      cases rest with
      | nil => rfl
      | cons y r =>
        simp only [joinWith]
        rw [List.isPrefixOf_iff_prefix]
        exact ⟨strOf "/" ++ joinWith (strOf "/") (y :: r), by simp [strOf]⟩
    · have hrest := ih (fun z hz => hfree z (by simp [hz])) hmem
      cases rest with
      | nil => simp at hmem
      | cons y r =>
        right
        simp only [joinWith]
        rcases hrest with hpre | hcon
        · have : containsSub (strOf "/" ++ joinWith (strOf "/") (y :: r))
              (strOf "/..") = true := by
            apply contains_of_prefix
            rw [List.isPrefixOf_iff_prefix] at hpre ⊢
            obtain ⟨tail, htail⟩ := hpre
            exact ⟨tail, by simpa [strOf] using htail⟩
          rw [List.append_assoc]
          exact contains_append_left x this
        · rw [List.append_assoc]
          exact contains_append_left x
            (contains_append_left (strOf "/") hcon)

theorem foldl_resolveStep_noDotdot (comps : List Str)
    (hnd : ∀ c ∈ comps, c ≠ ['.', '.']) (acc : List Str) :
    List.foldl resolveStep acc comps = acc ++ comps.filter realComp := by
  induction comps generalizing acc with
  | nil => simp
  | cons c rest ih =>
    have hc := hnd c (by simp)
    have hrest : ∀ d ∈ rest, d ≠ ['.', '.'] := fun d hd => hnd d (by simp [hd])
    cases hskip : (c.isEmpty || decide (c = ['.'])) with
    | true =>
      have hstep : resolveStep acc c = acc := by
        simp only [resolveStep]
        rw [if_pos hskip]
      have hfilter : realComp c = false := by
        simp only [realComp, hskip]
        rfl
      simp only [List.foldl_cons, hstep, List.filter_cons, hfilter]
      exact ih hrest acc
    | false =>
      have hstep : resolveStep acc c = acc ++ [c] := by
        simp only [resolveStep]
        rw [if_neg (by simp [hskip]), if_neg hc]
      have hfilter : realComp c = true := by
        simp only [realComp, hskip]
        rfl
      simp only [List.foldl_cons, hstep, List.filter_cons, hfilter]
      rw [ih hrest (acc ++ [c])]
      simp

theorem realComp_of_two_le {c : Str} (h : 2 ≤ c.length) : realComp c = true := by
  have h1 : c.isEmpty = false := by
    cases c with
    | nil => simp at h
    | cons a r => rfl
  have h2 : c ≠ ['.'] := by
    intro he
    rw [he] at h
    simp at h
  simp [realComp, h1, h2]

theorem realComp_of_clean {c : Str} (h1 : c ≠ []) (h2 : c ≠ ['.']) :
    realComp c = true := by
  have he : c.isEmpty = false := by
    cases c with
    | nil => exact absurd rfl h1
    | cons a r => rfl
  simp [realComp, he, h2]

/-- The components of a string passing the dot-dot checks contain no
dot-dot component. -/
theorem no_dotdot_comps (n1 : Str)
    (hpre : (strOf "..").isPrefixOf n1 = false)
    (hcon : containsSub n1 (strOf "/..") = false) :
    ∀ c ∈ splitOnChar '/' n1, c ≠ ['.', '.'] := by
  intro c hcmem hceq
  subst hceq
  have hjoin : joinWith (strOf "/") (splitOnChar '/' n1) = n1 := join_split '/' n1
  have := join_dotdot_mem (splitOnChar '/' n1) (mem_split_no_sep '/' n1) hcmem
  rw [hjoin] at this
  rcases this with hp | hc2
  · rw [hp] at hpre; cases hpre
  · rw [hc2] at hcon; cases hcon

/-- Core acceptance analysis for the step after the traversal checks:
with a clean root and the default extension, the resolved path is the
root extended by at least one real component. -/
theorem resolve_core (root : List Str) (n1 : Str)
    (hroot : cleanComps root)
    (hpre : (strOf "..").isPrefixOf n1 = false)
    (hcon : containsSub n1 (strOf "/..") = false) :
    ∃ l, l ≠ [] ∧
      ((root ++ splitOnChar '/'
          (if endsWithValidExt n1 then n1 else n1 ++ strOf ".html")).foldl
        resolveStep []) = root ++ l := by
  have hnd1 := no_dotdot_comps n1 hpre hcon
  -- facts about the extension-adjusted name
  have hmain : ∀ n2 : Str,
      (∀ c ∈ splitOnChar '/' n2, c ≠ ['.', '.']) →
      (∃ x ∈ splitOnChar '/' n2, realComp x = true) →
      ∃ l, l ≠ [] ∧
        ((root ++ splitOnChar '/' n2).foldl resolveStep []) = root ++ l := by
    intro n2 hnd hreal
    obtain ⟨x, hxmem, hxreal⟩ := hreal
    have hrootstep : List.foldl resolveStep [] root = root := by
      rw [foldl_resolveStep_noDotdot root (fun c hc => (hroot c hc).2.2) []]
      rw [List.filter_eq_self.mpr (fun c hc => realComp_of_clean (hroot c hc).1 (hroot c hc).2.1)]
      simp
    refine ⟨(splitOnChar '/' n2).filter realComp, ?_, ?_⟩
    · exact List.ne_nil_of_mem (List.mem_filter.mpr ⟨hxmem, hxreal⟩)
    · rw [List.foldl_append, hrootstep, foldl_resolveStep_noDotdot _ hnd root]
  by_cases hext : endsWithValidExt n1 = true
  · -- the name keeps its own valid extension
    rw [if_pos hext]
    simp only [endsWithValidExt, List.any_eq_true] at hext
    obtain ⟨e, hemem, hesuf⟩ := hext
    have hefacts : (∀ c ∈ e, c ≠ '/') ∧ 2 ≤ e.length := by
      simp only [VALID_TEMPLATE_EXTENSIONS, List.mem_cons,
        List.not_mem_nil, or_false] at hemem
      rcases hemem with rfl | rfl | rfl | rfl <;> exact ⟨by decide, by decide⟩
    obtain ⟨s1, hs1⟩ := List.isSuffixOf_iff_suffix.mp hesuf
    have hsplit : splitOnChar '/' n1 = concatLast (splitOnChar '/' s1) e := by
      rw [← hs1]
      exact split_append_sepfree '/' s1 e hefacts.1
    obtain ⟨y, hy⟩ := exists_concatLast (splitOnChar '/' s1) e
    refine hmain n1 hnd1 ⟨y ++ e, ?_, ?_⟩
    · rw [hsplit]; exact hy
    · exact realComp_of_two_le (by simp; omega)
  · -- the default extension is appended
    rw [if_neg hext]
    have hfree : ∀ c ∈ strOf ".html", c ≠ '/' := by decide
    have hsplit : splitOnChar '/' (n1 ++ strOf ".html") =
        concatLast (splitOnChar '/' n1) (strOf ".html") :=
      split_append_sepfree '/' n1 (strOf ".html") hfree
    have hnd2 : ∀ c ∈ splitOnChar '/' (n1 ++ strOf ".html"), c ≠ ['.', '.'] := by
      intro c hcmem
      rw [hsplit] at hcmem
      rcases mem_concatLast _ _ _ hcmem with hmem | ⟨y, hyeq⟩
      · exact hnd1 c hmem
      · intro hceq
        rw [hceq] at hyeq
        have := congrArg List.length hyeq
        simp [strOf] at this
    obtain ⟨y, hy⟩ := exists_concatLast (splitOnChar '/' n1) (strOf ".html")
    refine hmain (n1 ++ strOf ".html") hnd2 ⟨y ++ strOf ".html", ?_, ?_⟩
    · rw [hsplit]; exact hy
    · exact realComp_of_two_le (by simp [strOf])

/-- Every accepted name resolves strictly inside the canonical root. -/
theorem resolve_accepted_strict (root : List Str) (name : Str) (p : List Str)
    (hroot : cleanComps root)
    (h : resolveTemplatePath root (strOf ".html") name = .ok p) :
    root <+: p ∧ p ≠ root := by
  simp only [resolveTemplatePath] at h
  split at h
  · cases h
  · split at h
    · cases h
    · next hchk =>
      rw [Bool.or_eq_true, Bool.or_eq_true] at hchk
      push_neg at hchk
      have hpre : (strOf "..").isPrefixOf
          (lstripChar bslash (lstripChar '/' (normpath name))) = false :=
        Bool.eq_false_iff.mpr hchk.1.1
      have hcon : containsSub (lstripChar bslash (lstripChar '/' (normpath name)))
          (strOf "/..") = false :=
        Bool.eq_false_iff.mpr hchk.1.2
      obtain ⟨l, hlne, hleq⟩ :=
        resolve_core root (lstripChar bslash (lstripChar '/' (normpath name)))
          hroot hpre hcon
      rw [hleq] at h
      rw [if_pos (List.isPrefixOf_iff_prefix.mpr ⟨l, rfl⟩)] at h
      injection h with hp
      subst hp
      refine ⟨⟨l, rfl⟩, ?_⟩
      intro heq
      have h2 : root ++ l = root ++ [] := by simpa using heq
      exact hlne (List.append_cancel_left h2)

/-! Evaluator validation lemmas (claim C6). -/

theorem except_map_error {ε α β : Type} (f : α → β) (x : Except ε α) (e : ε)
    (h : x.map f = .error e) : x = .error e := by
  cases x with
  | ok v => simp [Except.map] at h
  | error e2 => simpa [Except.map] using h

theorem except_map_ok {ε α β : Type} (f : α → β) (x : Except ε α) (b : β)
    (h : x.map f = .ok b) : ∃ a, x = .ok a ∧ f a = b := by
  cases x with
  | ok v =>
    refine ⟨v, rfl, ?_⟩
    simpa [Except.map] using h
  | error e2 => simp [Except.map] at h

mutual

theorem validate_shape : (e : PyExpr) →
    validateExpr e = .ok () ∨ ∃ m, validateExpr e = .error (.securityError m)
  | .const _ => Or.inl rfl
  | .name id => by
    simp only [validateExpr]
    split
    · exact Or.inr ⟨_, rfl⟩
    · exact Or.inl rfl
  | .attr e a => by
    simp only [validateExpr]
    split
    · exact Or.inr ⟨_, rfl⟩
    · split
      · exact Or.inr ⟨_, rfl⟩
      · exact validate_shape e
  | .call f args => by
    simp only [validateExpr]
    rcases validate_shape f with hf | ⟨m, hf⟩
    · rw [hf]
      rcases validateList_shape args with ha | ⟨m, ha⟩
      · rw [ha]; exact Or.inl rfl
      · rw [ha]; exact Or.inr ⟨m, rfl⟩
    · rw [hf]; exact Or.inr ⟨m, rfl⟩
  | .cmpEq l r => by
    simp only [validateExpr]
    rcases validate_shape l with hl | ⟨m, hl⟩
    · rw [hl]
      rcases validate_shape r with hr | ⟨m, hr⟩
      · rw [hr]; exact Or.inl rfl
      · rw [hr]; exact Or.inr ⟨m, rfl⟩
    · rw [hl]; exact Or.inr ⟨m, rfl⟩

theorem validateList_shape : (es : List PyExpr) →
    validateList es = .ok () ∨ ∃ m, validateList es = .error (.securityError m)
  | [] => Or.inl rfl
  | e :: es => by
    simp only [validateList]
    rcases validate_shape e with he | ⟨m, he⟩
    · rw [he]
      rcases validateList_shape es with hs | ⟨m, hs⟩
      · rw [hs]; exact Or.inl rfl
      · rw [hs]; exact Or.inr ⟨m, rfl⟩
    · rw [he]; exact Or.inr ⟨m, rfl⟩

end

mutual

theorem validate_ok_clean : (e : PyExpr) → validateExpr e = .ok () →
    hasPrivAttr e = false ∧ hasDunderName e = false
  | .const _, _ => ⟨rfl, rfl⟩
  | .name id, h => by
    simp only [validateExpr] at h
    constructor
    · rfl
    · simp only [hasDunderName]
      by_contra hd
      rw [if_pos (by revert hd; cases hdd : ((strOf "__").isPrefixOf id
        && (strOf "__").isSuffixOf id) <;> simp)] at h
      cases h
  | .attr e a, h => by
    simp only [validateExpr] at h
    by_cases h1 : ((strOf "__").isPrefixOf a && (strOf "__").isSuffixOf a) = true
    · rw [if_pos h1] at h; cases h
    · rw [if_neg h1] at h
      by_cases h2 : ['_'].isPrefixOf a = true
      · rw [if_pos h2] at h; cases h
      · rw [if_neg h2] at h
        have := validate_ok_clean e h
        refine ⟨?_, ?_⟩
        · simp only [hasPrivAttr, Bool.or_eq_false_iff]
          exact ⟨Bool.eq_false_iff.mpr h2, this.1⟩
        · simpa only [hasDunderName] using this.2
  | .call f args, h => by
    simp only [validateExpr] at h
    cases hf : validateExpr f with
    | error e2 => rw [hf] at h; cases h
    | ok u =>
      cases u
      rw [hf] at h
      have hargs : validateList args = .ok () := h
      have c1 := validate_ok_clean f hf
      have c2 := validateList_ok_clean args hargs
      constructor
      · simp only [hasPrivAttr, Bool.or_eq_false_iff]; exact ⟨c1.1, c2.1⟩
      · simp only [hasDunderName, Bool.or_eq_false_iff]; exact ⟨c1.2, c2.2⟩
  | .cmpEq l r, h => by
    simp only [validateExpr] at h
    cases hl : validateExpr l with
    | error e2 => rw [hl] at h; cases h
    | ok u =>
      cases u
      rw [hl] at h
      have hr : validateExpr r = .ok () := h
      have c1 := validate_ok_clean l hl
      have c2 := validate_ok_clean r hr
      constructor
      · simp only [hasPrivAttr, Bool.or_eq_false_iff]; exact ⟨c1.1, c2.1⟩
      · simp only [hasDunderName, Bool.or_eq_false_iff]; exact ⟨c1.2, c2.2⟩

theorem validateList_ok_clean : (es : List PyExpr) → validateList es = .ok () →
    hasPrivAttrList es = false ∧ hasDunderNameList es = false
  | [], _ => ⟨rfl, rfl⟩
  | e :: es, h => by
    simp only [validateList] at h
    cases he : validateExpr e with
    | error e2 => rw [he] at h; cases h
    | ok u =>
      cases u
      rw [he] at h
      have hs : validateList es = .ok () := h
      have c1 := validate_ok_clean e he
      have c2 := validateList_ok_clean es hs
      constructor
      · simp only [hasPrivAttrList, Bool.or_eq_false_iff]; exact ⟨c1.1, c2.1⟩
      · simp only [hasDunderNameList, Bool.or_eq_false_iff]; exact ⟨c1.2, c2.2⟩

end

/-- Any expression whose parsed form contains a private attribute or a
dunder name makes `safe_eval` raise a `SecurityError`. -/
theorem safeEval_sec_of_unsafe (s : Str) (ctx : Ctx) (e : PyExpr)
    (hparse : parseExprTop (stripWs s) = .ok e)
    (hbad : (hasPrivAttr e || hasDunderName e) = true) :
    ∃ m, safeEval s ctx = .error (.securityError m) := by
  have hne : (stripWs s).isEmpty = false := by
    cases hemp : (stripWs s).isEmpty with
    | false => rfl
    | true =>
      rw [List.isEmpty_iff.mp hemp] at hparse
      have hcomp : (parseExprTop ([] : Str)).map hasPrivAttr =
          .error (.syntaxError (strOf "unexpected EOF")) := by decide
      rw [hparse] at hcomp
      simp [Except.map] at hcomp
  simp only [safeEval, hne, Bool.false_eq_true, if_false, hparse]
  rcases validate_shape e with hv | ⟨m, hv⟩
  · have := validate_ok_clean e hv
    rw [this.1, this.2] at hbad
    cases hbad
  · rw [hv]
    exact ⟨m, rfl⟩

/-! Escape lemmas (claim C5). -/

theorem replaceChar_append (n : Char) (r a b : Str) :
    replaceChar n r (a ++ b) = replaceChar n r a ++ replaceChar n r b := by
  induction a with
  | nil => rfl
  | cons c cs ih => simp [replaceChar, ih]

theorem escapeHtml_append (a b : Str) :
    escapeHtml (a ++ b) = escapeHtml a ++ escapeHtml b := by
  simp [escapeHtml, replaceChar_append]

theorem escapeHtml_single (c : Char) : escapeHtml [c] = escTableSpec c := by
  by_cases h1 : c = '&'
  · subst h1; decide
  · by_cases h2 : c = '<'
    · subst h2; decide
    · by_cases h3 : c = '>'
      · subst h3; decide
      · by_cases h4 : c = '"'
        · subst h4; decide
        · by_cases h5 : c = squote
          · subst h5; decide
          · simp [escapeHtml, escTableSpec, replaceChar, h1, h2, h3, h4, h5]

theorem escapeHtml_eq_spec (s : Str) : escapeHtml s = escapeHtmlSpec s := by
  induction s with
  | nil => rfl
  | cons c cs ih =>
    have : (c :: cs) = [c] ++ cs := rfl
    rw [this, escapeHtml_append, escapeHtml_single, ih]
    simp [escapeHtmlSpec]

/-! # Claim theorems -/

/-- C1.  With caching enabled (the default memory cache) and the
resolved template absent from the cache, `render` reads the file and
then calls `cache.store(template_path, raw_template)` — two positional
arguments against the three required by `MemoryCache.store` — so the
render raises `TypeError` instead of caching the raw source and
returning the parsed output; with caching disabled the same render
returns the parsed output.  This contradicts the claim, whose intent
(a raw-source cache keyed by path) matches `DiskCache.store` and the
engine comments, so the memory-cache signature is the slip. -/
theorem C1_store_call_type_error :
    render 30 defaultCfg
      [([strOf "app", strOf "views", strOf "home.html"], strOf "Hello")]
      (some emptyCache) [] 0 (strOf "home") [] =
      .error (.typeError
        (strOf "store() missing 1 required positional argument: content")) ∧
    render 30 defaultCfg
      [([strOf "app", strOf "views", strOf "home.html"], strOf "Hello")]
      Option.none [] 0 (strOf "home") [] =
      .ok (strOf "Hello", Option.none, []) := by
  constructor
  · decide
  · decide

/-- C2 counterexample.  The claim says a `SecurityError` raised while
evaluating an `@elseif` branch condition or a `@case` expression
propagates to the caller; in fact evaluating `x._p` raises a
`SecurityError`, yet both render calls return normally — the error is
swallowed and the `@else` branch (resp. the next `@case`) is taken. -/
theorem C2_counterexample :
    (safeEval (strOf "x._p") []).map pyStr =
      .error (.securityError (strOf "Access to private attributes is forbidden: _p")) ∧
    renderString 30 defaultCfg [] []
      (strOf "@if(False)a@elseif(x._p)b@elsec@endif") [] = .ok (strOf "c", []) ∧
    renderString 30 defaultCfg [] []
      (strOf "@switch(1)@case(x._p)A@case(1)B@default C@endswitch") [] =
      .ok (strOf "B", []) := by
  refine ⟨by decide, by decide, by decide⟩

/-- C2 amended.  A `SecurityError` raised while evaluating a
`{{ }}`/`{!! !!}` expression always propagates, independent of
strict mode; but one raised while evaluating an `@elseif` branch
condition is swallowed and the branch skipped, and one raised while
evaluating a `@case` expression is swallowed and the case skipped. -/
theorem C2_amended :
    (∀ (strict escape : Bool) (ctx : Ctx) (e m : Str),
      (evalOutputExpr ctx e).map pyStr = .error (.securityError m) →
      outputVariable strict escape ctx e = .error (.securityError m)) ∧
    (∀ (fuel : Nat) (cfg : EngineCfg) (ctx : Ctx) (cond body : Str)
        (rest : List (BranchKind × Str × Str)) (m : Str),
      (safeEval (stripWs cond) ctx).map pyStr = .error (.securityError m) →
      evalBranches (fuel + 1) cfg ((BranchKind.elseifB, cond, body) :: rest) ctx =
        evalBranches fuel cfg rest ctx) ∧
    (∀ (fuel : Nat) (cfg : EngineCfg) (ctx : Ctx) (ce cb body : Str)
        (cases1 : List (Str × Str)) (sv : PyValue) (m : Str),
      (safeEval (stripWs ce) ctx).map pyStr = .error (.securityError m) →
      caseSelect (fuel + 1) cfg ((ce, cb) :: cases1) sv body ctx =
        caseSelect fuel cfg cases1 sv body ctx) := by
  refine ⟨?_, ?_, ?_⟩
  · intro strict escape ctx e m h
    have h2 := except_map_error pyStr _ _ h
    simp [outputVariable, h2, PyErr.isSecurityError]
  · intro fuel cfg ctx cond body rest m h
    have h2 := except_map_error pyStr _ _ h
    simp [evalBranches, h2]
  · intro fuel cfg ctx ce cb body cases1 sv m h
    have h2 := except_map_error pyStr _ _ h
    simp [caseSelect, h2]

/-- Witness for C2 amended at the expression `x._p`. -/
theorem C2_amended_witness :
    outputVariable false true [] (strOf "x._p") =
      .error (.securityError (strOf "Access to private attributes is forbidden: _p")) ∧
    evalBranches 6 defaultCfg [(BranchKind.elseifB, strOf "x._p", strOf "b")] [] =
      evalBranches 5 defaultCfg [] [] ∧
    caseSelect 6 defaultCfg [(strOf "x._p", strOf "A")] (PyValue.int 1) (strOf "") [] =
      caseSelect 5 defaultCfg [] (PyValue.int 1) (strOf "") [] := by
  refine ⟨?_, ?_, ?_⟩
  · exact C2_amended.1 false true [] (strOf "x._p")
      (strOf "Access to private attributes is forbidden: _p") (by decide)
  · exact C2_amended.2.1 5 defaultCfg [] (strOf "x._p") (strOf "b") []
      (strOf "Access to private attributes is forbidden: _p") (by decide)
  · exact C2_amended.2.2 5 defaultCfg [] (strOf "x._p") (strOf "A") (strOf "")
      [] (PyValue.int 1)
      (strOf "Access to private attributes is forbidden: _p") (by decide)

/-- C3.  The claim (spec scenario 3) expects the loop-with-break render
to return `012`; in fact both loop handlers extract the `@foreach`
header with a lazy regex that stops at the first close paren, so the
header becomes `i in range(5`, whose evaluation is a syntax error, and
the render raises `TemplateSyntaxError`.  (Independently, nothing in the
source ever raises the `BreakLoop` signal that the loop drivers catch,
so `@break` could not terminate an iteration even with a parsable
header.)  The code contradicts its own documented headers
(`@for(i in range(10))` in constants.py), so this is a code bug. -/
theorem C3_foreach_header_failure :
    renderString 30 defaultCfg [] []
      (strOf "@foreach(i in range(5))@if(i == 3)@break @endif{{ i }}@endforeach")
      [] =
      .error (.templateSyntaxError
        (strOf "Error in @foreach header: Error evaluating expression: ( was never closed")) ∧
    (findForeachBlade
      (strOf "@foreach(i in range(5))@if(i == 3)@break @endif{{ i }}@endforeach")).map
        (fun p => p.1) = some (strOf "i in range(5") := by
  refine ⟨by decide, by decide⟩

/-- C4 counterexample.  The claim says every name containing a `..`
segment is rejected with a `SecurityError`; in fact `b/c/..` (which
contains a `..` segment) is normalised to `b`, accepted, and resolved to
`b.html` inside the root. -/
theorem C4_counterexample :
    resolveTemplatePath [strOf "app", strOf "views"] (strOf ".html")
      (strOf "b/c/..") = .ok [strOf "app", strOf "views", strOf "b.html"] ∧
    containsSub (strOf "b/c/..") (strOf "..") = true := by
  refine ⟨by decide, by decide⟩

/-- C4 amended.  Every template name accepted by path resolution
resolves, after canonicalisation, to a strict descendant of the
canonicalised template root; every absolute name is rejected with a
`SecurityError`, and so is every name whose normalised form still
begins with a `..` segment — in particular `../etc/passwd`; a `..`
segment that cancels inside the name is normalised away and the name
accepted. -/
theorem C4_amended :
    (∀ (root : List Str) (name : Str) (p : List Str), cleanComps root →
      resolveTemplatePath root (strOf ".html") name = .ok p →
      root <+: p ∧ p ≠ root) ∧
    (∀ (root : List Str) (ext name : Str), isAbsName name = true →
      resolveTemplatePath root ext name =
        .error (.securityError
          (strOf "Absolute template paths are not allowed: " ++ name))) ∧
    resolveTemplatePath [strOf "app", strOf "views"] (strOf ".html")
      (strOf "../etc/passwd") =
      .error (.securityError (strOf "Path traversal detected: ../etc/passwd")) := by
  refine ⟨resolve_accepted_strict, ?_, by decide⟩
  intro root ext name habs
  simp [resolveTemplatePath, habs]

/-- Witness for C4 amended: a clean root, an accepted name resolving
strictly inside it, and a rejected absolute name. -/
theorem C4_amended_witness :
    ([strOf "app", strOf "views"] <+: [strOf "app", strOf "views", strOf "home.html"] ∧
      [strOf "app", strOf "views", strOf "home.html"] ≠ [strOf "app", strOf "views"]) ∧
    resolveTemplatePath [strOf "app", strOf "views"] (strOf ".html")
      (strOf "/etc/passwd") =
      .error (.securityError
        (strOf "Absolute template paths are not allowed: /etc/passwd")) := by
  constructor
  · refine C4_amended.1 [strOf "app", strOf "views"] (strOf "home")
      [strOf "app", strOf "views", strOf "home.html"] ?_ (by decide)
    intro c hc
    rcases List.mem_cons.mp hc with rfl | hc
    · exact ⟨by decide, by decide, by decide⟩
    rcases List.mem_cons.mp hc with rfl | hc
    · exact ⟨by decide, by decide, by decide⟩
    · cases hc
  · exact C4_amended.2.1 [strOf "app", strOf "views"] (strOf ".html")
      (strOf "/etc/passwd") (by decide)

/-- C5 counterexample.  The claim says a `{!! expr !!}` interpolation
emits `str(value)` unescaped; for a null value the handler emits the
empty string, not `str(None) = "None"`. -/
theorem C5_counterexample :
    renderValue false PyValue.none = [] ∧
    renderString 30 defaultCfg [] [] (strOf "{!! x !!}")
      [(strOf "x", PyValue.none)] = .ok ([], []) ∧
    pyStr PyValue.none = strOf "None" ∧ ([] : Str) ≠ strOf "None" := by
  refine ⟨rfl, by decide, rfl, by decide⟩

/-- C5 amended.  `{{ expr }}` emits the empty string for null, the
unescaped text for a `SafeString`, and otherwise the string form with
exactly the spec escape table applied per character; `{!! expr !!}`
emits the empty string for null and `str(value)` unescaped otherwise —
so the raw-vs-escaped scenario renders as claimed. -/
theorem C5_amended :
    (∀ v : PyValue, renderValue true v =
      (match v with
       | PyValue.none => []
       | PyValue.safeStr s => s
       | v => escapeHtmlSpec (pyStr v))) ∧
    (∀ v : PyValue, renderValue false v =
      (match v with
       | PyValue.none => []
       | PyValue.safeStr s => s
       | v => pyStr v)) ∧
    renderString 30 defaultCfg [] [] (strOf "{{ x }} / {!! x !!}")
      [(strOf "x", PyValue.str (strOf "<i>"))] =
      .ok (strOf "&lt;i&gt; / <i>", []) := by
  refine ⟨?_, ?_, by decide⟩
  · intro v
    cases v <;> simp [renderValue, escapeHtml_eq_spec, escapeHtmlSpec, pyStr]
  · intro v
    cases v <;> simp [renderValue, pyStr]

/-- C6 counterexample.  The claim says any name starting with an
underscore raises a `SecurityError`; in fact only names that both start
and end with a double underscore are blocked, so `_secret` evaluates
normally and renders its value. -/
theorem C6_counterexample :
    (safeEval (strOf "_secret") [(strOf "_secret", PyValue.int 1)]).map pyStr =
      .ok (strOf "1") ∧
    renderString 30 defaultCfg [] [] (strOf "{{ _secret }}")
      [(strOf "_secret", PyValue.int 1)] = .ok (strOf "1", []) ∧
    ['_'].isPrefixOf (strOf "_secret") = true := by
  refine ⟨by decide, by decide, by decide⟩

/-- C6 amended.  Evaluation raises a `SecurityError` for every
expression containing an attribute that starts with an underscore or a
name that both starts and ends with a double underscore; a name that
merely starts with a single underscore is not rejected.  In particular
`{{ (1).__class__ }}` raises a `SecurityError` even with
`strict_mode=false`. -/
theorem C6_amended :
    (∀ (s : Str) (ctx : Ctx),
      (parseExprTop (stripWs s)).map
        (fun e => hasPrivAttr e || hasDunderName e) = .ok true →
      isSecurityResult (safeEval s ctx) = true) ∧
    (safeEval (strOf "(1).__class__") []).map pyStr =
      .error (.securityError
        (strOf "Access to dunder attributes is forbidden: __class__")) ∧
    renderString 30 defaultCfg [] [] (strOf "{{ (1).__class__ }}") [] =
      .error (.securityError
        (strOf "Access to dunder attributes is forbidden: __class__")) := by
  refine ⟨?_, by decide, by decide⟩
  intro s ctx h
  obtain ⟨e, hp, hf⟩ := except_map_ok _ _ _ h
  obtain ⟨m, hm⟩ := safeEval_sec_of_unsafe s ctx e hp hf
  simp [isSecurityResult, hm, PyErr.isSecurityError]

/-- Witness for C6 amended at the expression `(1).__class__`. -/
theorem C6_amended_witness :
    isSecurityResult (safeEval (strOf "(1).__class__") []) = true :=
  C6_amended.1 (strOf "(1).__class__") [] (by decide)

/-- C7.  The claim (and the spec, twice) says the push/prepend store is
cleared per render; in fact the parser holds one `StackHandler` for the
engine lifetime and `parse` never clears it, so content pushed by one
render is emitted by `@stack` in a later render on the same engine. -/
theorem C7_stacks_persist :
    renderString 30 defaultCfg [] [] (strOf "@push(\"s\")A@endpush") [] =
      .ok ([], [(strOf "s", [strOf "A"])]) ∧
    renderString 30 defaultCfg [] [(strOf "s", [strOf "A"])]
      (strOf "@stack(\"s\")") [] =
      .ok (strOf "A", [(strOf "s", [strOf "A"])]) := by
  refine ⟨by decide, by decide⟩

/-- C8 counterexample.  The claim says an empty body section makes the
`@yield` default apply (rendering `ADB`); in fact a declared-but-empty
section is found by `sections.get`, so the yield emits the empty
section content and the render returns `AB`. -/
theorem C8_counterexample :
    render 30 defaultCfg
      [([strOf "app", strOf "views", strOf "base.html"],
          strOf "A@yield(\"body\",\"D\")B"),
        ([strOf "app", strOf "views", strOf "child.html"],
          strOf "@extends(\"base\")@section(\"body\")@endsection")]
      Option.none [] 0 (strOf "child") [] = .ok (strOf "AB", Option.none, []) ∧
    strOf "AB" ≠ strOf "ADB" := by
  refine ⟨by decide, by decide⟩

/-- C8 amended.  With parent `A@yield("body","D")B`: a child section
with body `X` renders `AXB`; a child with no body section at all
renders `ADB` (the default applies); a child with a declared empty body
section renders `AB` (the empty content wins over the default).
Rendered with caching disabled (the default cache configuration
triggers the C1 store bug on any miss). -/
theorem C8_amended :
    render 30 defaultCfg
      [([strOf "app", strOf "views", strOf "base.html"],
          strOf "A@yield(\"body\",\"D\")B"),
        ([strOf "app", strOf "views", strOf "child.html"],
          strOf "@extends(\"base\")@section(\"body\")X@endsection")]
      Option.none [] 0 (strOf "child") [] = .ok (strOf "AXB", Option.none, []) ∧
    render 30 defaultCfg
      [([strOf "app", strOf "views", strOf "base.html"],
          strOf "A@yield(\"body\",\"D\")B"),
        ([strOf "app", strOf "views", strOf "child.html"],
          strOf "@extends(\"base\")")]
      Option.none [] 0 (strOf "child") [] = .ok (strOf "ADB", Option.none, []) ∧
    render 30 defaultCfg
      [([strOf "app", strOf "views", strOf "base.html"],
          strOf "A@yield(\"body\",\"D\")B"),
        ([strOf "app", strOf "views", strOf "child.html"],
          strOf "@extends(\"base\")@section(\"body\")@endsection")]
      Option.none [] 0 (strOf "child") [] = .ok (strOf "AB", Option.none, []) := by
  refine ⟨by decide, by decide, by decide⟩

/-- C9.  The claim (and the handler comments) says a reserved word used
as a name is mapped to a context lookup so that `{{ class }}` emits the
bound value; the mapping to `context.get("class","")` does happen
textually, but the evaluation environment never binds the name
`context`, so the lookup raises `NameError`, is wrapped in
`DirectiveError`, and non-strict rendering emits the empty string
instead of `x`.  The code contradicts its own documented example, so
this is a code bug. -/
theorem C9_translation_not_evaluable :
    translateReserved (strOf "class") = strOf "context.get(\"class\",\"\")" ∧
    (safeEval (translateReserved (strOf "class"))
        [(strOf "class", PyValue.str (strOf "x"))]).map pyStr =
      .error (.directiveError
        (strOf "Error evaluating expression: name context is not defined")) ∧
    renderString 30 defaultCfg [] [] (strOf "{{ class }}")
      [(strOf "class", PyValue.str (strOf "x"))] = .ok ([], []) ∧
    ([] : Str) ≠ strOf "x" := by
  refine ⟨by decide, by decide, by decide, by decide⟩

/-- C10 counterexample.  The claim quantifies over rendered templates:
any template whose comment-stripped text contains `@python` raises a
`SecurityError` and produces no output.  In fact `@push`/`@prepend`
collection runs before the control pass, so a `@python` occurrence
inside a push block is moved into the stack store before the gate ever
sees the text: `A@push("s")@python@endpush` contains `@python` after
comment stripping, yet renders `A` with no error. -/
theorem C10_counterexample :
    containsSub (stripComments (strOf "A@push(\"s\")@python@endpush"))
      (strOf "@python") = true ∧
    renderString 30 defaultCfg [] [] (strOf "A@push(\"s\")@python@endpush") [] =
      .ok (strOf "A", [(strOf "s", [strOf "@python"])]) := by
  refine ⟨by decide, by decide⟩

/-- C10 amended.  With `allow_python_blocks=False`, the misc handler
raises a `SecurityError` for any text reaching it whose comment-stripped
form contains the substring `@python`, before any block is matched —
even for the literal text `contact@python.org`, whose render therefore
produces no output.  The gate applies to the text as the control pass
receives it: `@python` text removed earlier in the pipeline (for
example into a push block, see the counterexample) escapes it. -/
theorem C10_amended :
    (∀ (fuel : Nat) (cfg : EngineCfg) (t : Str) (ctx : Ctx),
      cfg.allowPythonBlocks = false →
      containsSub (stripComments t) (strOf "@python") = true →
      miscProcess (fuel + 1) cfg t ctx = .error (.securityError pythonGateMsg)) ∧
    renderString 30 defaultCfg [] [] (strOf "contact@python.org") [] =
      .error (.securityError pythonGateMsg) := by
  constructor
  · intro fuel cfg t ctx hallow hcontains
    simp [miscProcess, hcontains, hallow]
  · decide

/-- Witness for C10 amended at the literal text `contact@python.org`. -/
theorem C10_amended_witness :
    miscProcess 5 defaultCfg (strOf "contact@python.org") [] =
      .error (.securityError pythonGateMsg) :=
  C10_amended.1 4 defaultCfg (strOf "contact@python.org") [] rfl (by decide)

end SB
